import Mathlib

/-!
Verification development for the response-to-action pipeline of `ollama_cli.py`
(repository `totofdodge51/ollama-cli`).

Strings are modelled through their character lists (`String.data`); the
regex-based tag extraction of the source (`re.findall` / `re.search` with
non-greedy captures over fixed literal delimiters) is modelled by explicit
first-occurrence scanners, which coincide with the lazy-regex semantics for
the patterns the source uses.  Filesystem, subprocess and model-generation
effects are modelled by oracle functions, and the user-visible side effects
of the handlers are recorded as an ordered event trace.
-/

set_option maxHeartbeats 1000000

namespace OllamaCli

/-! ### Python string primitives -/

/-- Characters removed by Python `str.strip()` with no argument. -/
def pyIsSpace (c : Char) : Bool :=
  c = ' ' || c = '\t' || c = '\n' || c = '\r' || c = '\x0b' || c = '\x0c'

/-- Python `str.strip()` on a character list. -/
def pystripL (l : List Char) : List Char :=
  ((l.dropWhile pyIsSpace).reverse.dropWhile pyIsSpace).reverse

/-- Python `str.strip()`. -/
def pystrip (s : String) : String := String.mk (pystripL s.data)

/-- Python `str.endswith` (kept on the character-list level for computability). -/
def endsWithL (suf l : List Char) : Bool := suf.isSuffixOf l

/-- Python `str.endswith` on strings. -/
def sEndsWith (s suf : String) : Bool := endsWithL suf.data s.data

/-- Python `str.startswith` on strings. -/
def sStartsWith (s pre : String) : Bool := pre.data.isPrefixOf s.data

/-- Emptiness of a string, via its character data. -/
def sIsEmpty (s : String) : Bool := s.data.isEmpty

/-! ### First-occurrence scanner

`splitFirst p l` finds the first occurrence of the literal pattern `p` in
`l` and returns the text before it together with the text after it.  This is
the primitive from which the source's lazy-regex extractions are modelled:
`re.findall(r'<shell>(.*?)</shell>', s)` is "find the next `<shell>`, then
capture lazily up to the next `</shell>`, continue after it", and similarly
for the `<file path="...">...</file>` and fenced-code patterns. -/

def splitFirst (p : List Char) : List Char → Option (List Char × List Char)
  | [] => none
  | c :: l =>
    if !p.isEmpty && p.isPrefixOf (c :: l) then
      some ([], (c :: l).drop p.length)
    else
      match splitFirst p l with
      | none => none
      | some br => some (c :: br.1, br.2)

theorem isPrefixOf_exists {p l : List Char} (h : p.isPrefixOf l = true) :
    ∃ t, l = p ++ t := by
  induction p generalizing l with
  | nil => exact ⟨l, rfl⟩
  | cons a p ih =>
    cases l with
    | nil => simp [List.isPrefixOf] at h
    | cons b l =>
      simp only [List.isPrefixOf, Bool.and_eq_true, beq_iff_eq] at h
      obtain ⟨t, ht⟩ := ih h.2
      exact ⟨t, by simp [h.1, ht]⟩

theorem isPrefixOf_append_self (p t : List Char) : p.isPrefixOf (p ++ t) = true := by
  induction p with
  | nil => simp [List.isPrefixOf]
  | cons a p ih => simp [List.isPrefixOf, ih]

/-- A successful scan consumes at least the (necessarily nonempty) pattern. -/
theorem splitFirst_length {p : List Char} :
    ∀ {l br}, splitFirst p l = some br → br.2.length < l.length := by
  intro l
  induction l with
  | nil => intro br h; simp [splitFirst] at h
  | cons c l ih =>
    intro br h
    rw [splitFirst] at h
    by_cases hc : (!p.isEmpty && p.isPrefixOf (c :: l)) = true
    · rw [if_pos hc] at h
      cases h
      have hp : 1 ≤ p.length := by
        simp only [Bool.and_eq_true, Bool.not_eq_true'] at hc
        rcases p with _ | ⟨a, q⟩
        · simp at hc
        · simp
      simp only [List.length_drop, List.length_cons]
      omega
    · rw [if_neg hc] at h
      cases hfl : splitFirst p l with
      | none => rw [hfl] at h; cases h
      | some br' =>
        rw [hfl] at h
        cases h
        have := ih hfl
        simp only [List.length_cons]
        omega

/-- Characterization: a successful scan decomposes the list. -/
theorem splitFirst_eq_append {p : List Char} :
    ∀ {l br}, splitFirst p l = some br → l = br.1 ++ p ++ br.2 := by
  intro l
  induction l with
  | nil => intro br h; simp [splitFirst] at h
  | cons c l ih =>
    intro br h
    rw [splitFirst] at h
    by_cases hc : (!p.isEmpty && p.isPrefixOf (c :: l)) = true
    · rw [if_pos hc] at h
      cases h
      simp only [Bool.and_eq_true] at hc
      obtain ⟨t, ht⟩ := isPrefixOf_exists hc.2
      simp only [ht, List.nil_append]
      rw [List.drop_left]
    · rw [if_neg hc] at h
      cases hfl : splitFirst p l with
      | none => rw [hfl] at h; cases h
      | some br' =>
        rw [hfl] at h
        cases h
        have := ih hfl
        simp only [List.cons_append, List.append_assoc] at this ⊢
        simp [this]

/-- If the pattern starts with `<` and the text has no `<`, the scan fails. -/
theorem splitFirst_none_of_no_open {p' l : List Char} (h : '<' ∉ l) :
    splitFirst ('<' :: p') l = none := by
  induction l with
  | nil => simp [splitFirst]
  | cons c l ih =>
    have hc : c ≠ '<' := fun he => h (he ▸ List.mem_cons_self c l)
    have hl : '<' ∉ l := fun hm => h (List.mem_cons_of_mem c hm)
    rw [splitFirst]
    have hpre : ('<' :: p').isPrefixOf (c :: l) = false := by
      simp only [List.isPrefixOf, Bool.and_eq_false_iff]
      left
      simp [beq_eq_false_iff_ne]
      exact fun he => hc he.symm
    rw [if_neg (by simp [hpre])]
    rw [ih hl]

/-- Scanning past a `<`-free chunk: the first occurrence lies beyond it. -/
theorem splitFirst_append_of_no_open {p' j l : List Char} (h : '<' ∉ j) :
    splitFirst ('<' :: p') (j ++ l) =
      (splitFirst ('<' :: p') l).map (fun br => (j ++ br.1, br.2)) := by
  induction j with
  | nil =>
    simp only [List.nil_append]
    cases splitFirst ('<' :: p') l with
    | none => simp
    | some br => simp
  | cons c j ih =>
    have hc : c ≠ '<' := fun he => h (he ▸ List.mem_cons_self c j)
    have hj : '<' ∉ j := fun hm => h (List.mem_cons_of_mem c hm)
    rw [List.cons_append, splitFirst]
    have hpre : ('<' :: p').isPrefixOf (c :: (j ++ l)) = false := by
      simp only [List.isPrefixOf, Bool.and_eq_false_iff]
      left
      simp [beq_eq_false_iff_ne]
      exact fun he => hc he.symm
    rw [if_neg (by simp [hpre])]
    rw [ih hj]
    cases splitFirst ('<' :: p') l with
    | none => simp
    | some br => simp

/-- The scan at an exact pattern occurrence captures nothing before it. -/
theorem splitFirst_at_self (p : List Char) (hp : p ≠ []) (r : List Char) :
    splitFirst p (p ++ r) = some ([], r) := by
  rcases p with _ | ⟨c, p'⟩
  · exact absurd rfl hp
  · rw [List.cons_append, splitFirst]
    rw [if_pos]
    · congr 1
      congr 1
      have : (c :: p') ++ r = c :: (p' ++ r) := rfl
      rw [← this, List.drop_left]
    · simp only [Bool.and_eq_true]
      constructor
      · simp
      · exact isPrefixOf_append_self (c :: p') r

/-! ### Tag constants of the source grammar -/

def projOpenTag : List Char := "<project_creation>".data
def projCloseTag : List Char := "</project_creation>".data
def modsOpenTag : List Char := "<file_modifications>".data
def modsCloseTag : List Char := "</file_modifications>".data
def shellOpenTag : List Char := "<shell>".data
def shellCloseTag : List Char := "</shell>".data
def explOpenTag : List Char := "<explanation>".data
def explCloseTag : List Char := "</explanation>".data
def openFileTag : List Char := "<file path=\"".data
def quoteGtTag : List Char := "\">".data
def closeFileTag : List Char := "</file>".data
def fenceTag : List Char := "```".data
def slashL : List Char := "/".data
def pyExt : String := ".py"

/-! ### findall / search models -/

/-- Model of `re.findall(open(.*?)close, s, re.DOTALL)` for literal delimiters:
repeatedly locate the next opening delimiter, capture lazily up to the next
closing delimiter, and continue after it.  The recursion is bounded by a fuel
argument (instantiated with the text length, which `splitFirst_length` shows
suffices) to keep the definition structurally recursive and computable by the
kernel. -/
def findAllBetweenF (o c : List Char) : Nat → List Char → List (List Char)
  | 0, _ => []
  | fuel + 1, s =>
    match splitFirst o s with
    | none => []
    | some br1 =>
      match splitFirst c br1.2 with
      | none => []
      | some br2 => br2.1 :: findAllBetweenF o c fuel br2.2

def findAllBetween (o c : List Char) (s : List Char) : List (List Char) :=
  findAllBetweenF o c s.length s

/-- Model of `re.search(open(.*?)close, s, re.DOTALL)` for literal delimiters. -/
def findFirstBetween (o c : List Char) (s : List Char) : Option (List Char) :=
  match splitFirst o s with
  | none => none
  | some br1 =>
    match splitFirst c br1.2 with
    | none => none
    | some br2 => some br2.1

/-- Model of `re.findall(r'<file path="(.*?)">(.*?)</file>', s, re.DOTALL)`
(fuelled like `findAllBetweenF`). -/
def findAllFileEntriesF : Nat → List Char → List (List Char × List Char)
  | 0, _ => []
  | fuel + 1, s =>
    match splitFirst openFileTag s with
    | none => []
    | some br1 =>
      match splitFirst quoteGtTag br1.2 with
      | none => []
      | some br2 =>
        match splitFirst closeFileTag br2.2 with
        | none => []
        | some br3 => (br2.1, br3.1) :: findAllFileEntriesF fuel br3.2

def findAllFileEntries (s : List Char) : List (List Char × List Char) :=
  findAllFileEntriesF s.length s

/-- `\w` of the source's fenced-block regexes. -/
def isWordChar (c : Char) : Bool := c.isAlphanum || c = '_'

/-- The optional `\n` after the language tag of a fence. -/
def dropOneNl (l : List Char) : List Char :=
  match l with
  | [] => []
  | c :: t => if c = '\n' then t else c :: t

theorem dropOneNl_length (l : List Char) : (dropOneNl l).length ≤ l.length := by
  cases l with
  | nil => simp [dropOneNl]
  | cons c t =>
    by_cases h : c = '\n'
    · simp [dropOneNl, h]
    · simp [dropOneNl, h]

theorem length_dropWhile_le (p : Char → Bool) (l : List Char) :
    (l.dropWhile p).length ≤ l.length := by
  induction l with
  | nil => simp
  | cons c t ih =>
    by_cases h : p c = true
    · simp only [List.dropWhile, h, List.length_cons]
      omega
    · simp only [Bool.not_eq_true] at h
      simp [List.dropWhile, h]

/-- Model of `re.findall(r'```(\w*)?\n?(.*?)```', s, re.DOTALL)`: each match
captures a greedy run of word characters (the language tag), skips one
optional newline and captures lazily up to the next fence (fuelled like
`findAllBetweenF`). -/
def findAllCodeBlocksF : Nat → List Char → List (List Char × List Char)
  | 0, _ => []
  | fuel + 1, s =>
    match splitFirst fenceTag s with
    | none => []
    | some br1 =>
      match splitFirst fenceTag (dropOneNl (br1.2.dropWhile isWordChar)) with
      | none => []
      | some br2 => (br1.2.takeWhile isWordChar, br2.1) :: findAllCodeBlocksF fuel br2.2

def findAllCodeBlocks (s : List Char) : List (List Char × List Char) :=
  findAllCodeBlocksF s.length s

/-- Split at the LAST occurrence of `p` (used for the greedy `(.*)` of the
fenced-wrapper stripping regex `r'```(?:\w+)?\n?(.*)```'`; fuelled like
`findAllBetweenF`). -/
def splitLastF (p : List Char) : Nat → List Char → Option (List Char × List Char)
  | 0, _ => none
  | fuel + 1, l =>
    match splitFirst p l with
    | none => none
    | some br =>
      match splitLastF p fuel br.2 with
      | none => some br
      | some br2 => some (br.1 ++ p ++ br2.1, br2.2)

def splitLast (p : List Char) (l : List Char) : Option (List Char × List Char) :=
  splitLastF p l.length l

/-- Model of `re.search(r'```(?:\w+)?\n?(.*)```', s, re.DOTALL)`: the capture
runs from just after the first fence (plus language tag and one optional
newline) up to the last fence, `.*` being greedy under DOTALL. -/
def fenceWrapCapture (s : List Char) : Option (List Char) :=
  match splitFirst fenceTag s with
  | none => none
  | some br1 =>
    match splitLast fenceTag (dropOneNl (br1.2.dropWhile isWordChar)) with
    | none => none
    | some br2 => some br2.1

/-- `content_to_write = ...; code_match = re.search(fence-wrapper); if match:
content_to_write = match.group(1).strip()` — strip one fenced wrapper layer. -/
def stripFenceWrap (content : List Char) : List Char :=
  match fenceWrapCapture content with
  | none => content
  | some cap => pystripL cap

/-- The full content normalization of `handle_file_modifications`:
`new_content = raw.strip()` followed by the fenced-wrapper stripping. -/
def cleanContent (raw : List Char) : List Char := stripFenceWrap (pystripL raw)

/-! ### FileState: the `loaded_files` Python dict

An insertion-ordered association list with unique keys, with the dict
assignment `d[k] = v` (update in place if the key exists, else append) and
the lookup `d.get(k)`. -/

abbrev PyDict := List (String × String)

/-- Python dict assignment `d[k] = v`. -/
def dinsert (k v : String) : PyDict → PyDict
  | [] => [(k, v)]
  | kv :: rest => if kv.1 = k then (k, v) :: rest else kv :: dinsert k v rest

/-- Python dict lookup `d.get(k)`. -/
def dget : PyDict → String → Option String
  | [], _ => none
  | kv :: rest, k => if kv.1 = k then some kv.2 else dget rest k

/-- Python `list(d.keys())`. -/
def dkeys (d : PyDict) : List String := d.map (fun kv => kv.1)

/-! ### DiffEngine: `difflib.unified_diff` over `splitlines(keepends=True)`

`lineDiff` is the standard LCS line diff producing Context/Added/Removed
lines.  `unified_diff` models the grouped unified output at the granularity
the pipeline observes: when every line is Context (the matcher produced a
single `equal` opcode) `difflib.unified_diff` yields no output at all — no
file headers, no hunks; otherwise it emits headers followed by the diff
body.  The 3-line context windowing of the hunks is elided, as no claim
depends on it. -/

inductive DiffLine where
  | context (s : String)
  | added (s : String)
  | removed (s : String)
  | header (s : String)
deriving DecidableEq, Repr

/-- Longest common subsequence of line lists, fuelled by the total length
(which suffices, every recursive call shrinking the combined length) so the
definition stays kernel-computable. -/
def lcsF : Nat → List String → List String → List String
  | 0, _, _ => []
  | _ + 1, [], _ => []
  | _ + 1, _ :: _, [] => []
  | fuel + 1, a :: as, b :: bs =>
    if a = b then a :: lcsF fuel as bs
    else
      if (lcsF fuel (a :: as) bs).length ≤ (lcsF fuel as (b :: bs)).length then
        lcsF fuel as (b :: bs)
      else lcsF fuel (a :: as) bs

def lcs (a b : List String) : List String := lcsF (a.length + b.length) a b

/-- LCS-based line diff (fuelled like `lcsF`). -/
def lineDiffF : Nat → List String → List String → List DiffLine
  | 0, _, _ => []
  | _ + 1, [], bs => bs.map DiffLine.added
  | fuel + 1, a :: as, [] => DiffLine.removed a :: lineDiffF fuel as []
  | fuel + 1, a :: as, b :: bs =>
    if a = b then DiffLine.context a :: lineDiffF fuel as bs
    else if (lcs (a :: as) bs).length ≤ (lcs as (b :: bs)).length then
      DiffLine.removed a :: lineDiffF fuel as (b :: bs)
    else
      DiffLine.added b :: lineDiffF fuel (a :: as) bs

def lineDiff (a b : List String) : List DiffLine := lineDiffF (a.length + b.length) a b

def DiffLine.isContext : DiffLine → Bool
  | DiffLine.context _ => true
  | _ => false

/-- Python `str.splitlines(keepends=True)` restricted to `'\n'` boundaries
(the other Unicode line boundaries Python also splits at are irrelevant to
every claim, as the diff claims compare a string with itself). -/
def splitLinesKeepAux (cur : List Char) : List Char → List (List Char)
  | [] => if cur.isEmpty then [] else [cur.reverse]
  | c :: rest =>
    if c = '\n' then ('\n' :: cur).reverse :: splitLinesKeepAux [] rest
    else splitLinesKeepAux (c :: cur) rest

def splitlines (s : String) : List String := (splitLinesKeepAux [] s.data).map String.mk

/-- `difflib.unified_diff(original, proposed, fromfile, tofile)` as observed
by the pipeline (see the section comment above). -/
def unified_diff (fromfile tofile : String) (a b : List String) : List DiffLine :=
  let body := lineDiff a b
  if body.all DiffLine.isContext then []
  else DiffLine.header ("--- " ++ fromfile) :: DiffLine.header ("+++ " ++ tofile) :: body

/-! ### Data model: directives, events, oracles, session state -/

/-- The directive tagged union of the pipeline. -/
inductive Directive where
  | createFile (path content : String)
  | modifyFile (path content : String)
  | createDir (path : String)
  | runShell (command : String)
deriving DecidableEq, Repr

/-- Observable side effects of the handlers, in order of occurrence.
Panels that only restyle text (raw-response echo, syntax-highlighted code
panels) are not modelled; every state-bearing or decision-bearing effect is. -/
inductive Event where
  | planShown (text : String)
  | tableShown (paths : List String)
  | confirmAsked (count : Nat)
  | cancelReported
  | errorReport (path msg : String)
  | correctionRequested (path code err : String)
  | diffShown (path : String) (d : List DiffLine)
  | fileWritten (path content : String)
  | writeFailed (path : String)
  | dirCreated (path : String)
  | dirFailed (path : String)
  | fileLoaded (path : String)
  | execConfirmAsked (command : String)
  | shellRan (command : String)
  | shellLaunched (command : String)
  | execCancelled (command : String)
  | multiExecNotice (count : Nat)
  | fallbackExecNotice (count : Nat)
  | fallbackCreateNotice
  | fallbackModifyNotice
  | createConfirmAsked (path : String)
  | modifyConfirmAsked (path : String)
  | selectionAsked (candidates : List String)
deriving DecidableEq, Repr

/-- External collaborators and user decisions, per the spec's boundary:
`pyValid` is the pluggable syntax validator (`compile(code, ...)`, `none`
meaning valid, `some msg` the diagnostic), `writeOk`/`mkdirOk`/`diskRead`
the file-I/O collaborator, `regen` the model-generation interface used by a
correction cycle (the empty string models a failed or empty regeneration),
and the remaining fields the interactive answers.  `corrAns i` answers the
"attempt a self-correction?" question for the batch entry at index `i`;
`filenameAns` is the fallback creation filename (empty = cancel);
`selectAns` the fallback file selection (`none` = cancel). -/
structure Oracles where
  pyValid : String → Option String
  corrAns : Nat → Bool
  confirmBatch : Bool
  execAns : Nat → Bool
  writeOk : String → String → Bool
  mkdirOk : String → Bool
  diskRead : String → Option String
  filenameAns : String
  selectAns : Option Nat
  confirmCreate : Bool
  confirmModify : Bool
  terminalLauncher : String
  regen : String → String → String → String

/-- Session state observed by the pipeline: the event trace and the
`loaded_files` FileState. -/
structure St where
  events : List Event
  files : PyDict
deriving DecidableEq, Repr

def push (st : St) (e : Event) : St := { st with events := st.events ++ [e] }

/-- The type of the self-correction continuation
(`_attempt_self_correction(file_path, invalid_code, error_message)`). -/
abbrev Att := String → String → String → St → St

/-! ### Shell execution (`run_command`, `handle_shell_execution`) -/

/-- `run_command(command)`: per-command confirmation, then either a detached
launch (commands whose stripped text starts with the terminal-launcher
prefix) or a synchronous run; a decline is reported.  The captured
stdout/stderr rendering is display-only and not modelled. -/
def run_command (o : Oracles) (i : Nat) (st : St) (command : String) : St :=
  let st := push st (Event.execConfirmAsked command)
  if o.execAns i then
    if sStartsWith (pystrip command) o.terminalLauncher then
      push st (Event.shellLaunched command)
    else
      push st (Event.shellRan command)
  else
    push st (Event.execCancelled command)

def runCommands (o : Oracles) : Nat → St → List String → St
  | _, st, [] => st
  | i, st, c :: rest => runCommands o (i + 1) (run_command o i st c) rest

/-- The commands extracted by
`re.findall(r'<shell>(.*?)</shell>', response, re.DOTALL)`, each stripped
as at the `run_command(command.strip())` call site. -/
def shellCmds (response : String) : List String :=
  (findAllBetween shellOpenTag shellCloseTag response.data).map
    (fun l => pystrip (String.mk l))

/-- `handle_shell_execution(response)`. -/
def handle_shell_execution (o : Oracles) (st : St) (response : String) : St :=
  let commands := shellCmds response
  if commands.isEmpty then st
  else
    let st := if commands.length > 1 then push st (Event.multiExecNotice commands.length) else st
    runCommands o 0 st commands

/-! ### Fallback code-block handling (`handle_fallback_code_block`) -/

/-- `lang.lower() in ['shell', 'bash', 'sh']`. -/
def isShellLang (lang : List Char) : Bool :=
  let low := lang.map Char.toLower
  low == "shell".data || low == "bash".data || low == "sh".data

/-- The `is_all_shell` / `shell_commands` loop of the fallback handler:
empty blocks are skipped, a shell-tagged block is collected, the first
non-shell block breaks the loop clearing the all-shell flag. -/
def shellScan : List (List Char × List Char) → Bool × List String
  | [] => (true, [])
  | (lang, content) :: rest =>
    let c := pystripL content
    if c.isEmpty then shellScan rest
    else if isShellLang lang then
      let r := shellScan rest
      (r.1, String.mk c :: r.2)
    else (false, [])

/-- Result of the fallback handler: its boolean return value, the directive
it committed to once a target path was resolved (claim C6's "constructed
directive"), and the resulting state. -/
structure FbResult where
  handled : Bool
  built : Option Directive
  st : St
deriving Repr

/-- Lexicographic code-point comparison (Python string `<`). -/
def lexLt : List Char → List Char → Bool
  | [], [] => false
  | [], _ :: _ => true
  | _ :: _, [] => false
  | a :: as, b :: bs =>
    if a.toNat < b.toNat then true
    else if b.toNat < a.toNat then false
    else lexLt as bs

def sLt (a b : String) : Bool := lexLt a.data b.data

/-- Insertion sort on strings, modelling Python `sorted` on the loaded paths. -/
def insertSorted (x : String) : List String → List String
  | [] => [x]
  | y :: ys => if sLt y x then y :: insertSorted x ys else x :: y :: ys

def sortStrings : List String → List String
  | [] => []
  | x :: xs => insertSorted x (sortStrings xs)

/-- Confirmation-and-write tail of the fallback creation path (`write_file`
then automatic `load_file` of the created file; the re-read after a
successful write is modelled as returning the just-written content). -/
def fallbackCreateConfirm (o : Oracles) (st : St) (built : Option Directive)
    (filename ncS : String) : FbResult :=
  let st := push st (Event.createConfirmAsked filename)
  if o.confirmCreate then
    if o.writeOk filename ncS then
      ⟨true, built,
        { events := st.events ++ [Event.fileWritten filename ncS, Event.fileLoaded filename],
          files := dinsert filename ncS st.files }⟩
    else ⟨true, built, push st (Event.writeFailed filename)⟩
  else ⟨true, built, push st Event.cancelReported⟩

/-- The zero-loaded-files branch of the fallback handler: the path is asked
interactively (empty answer or keyboard interrupt cancels), a `.py` filename
triggers validation with the one-shot correction offer, then the creation is
confirmed and performed. -/
def fallbackCreate (o : Oracles) (isCorr : Bool) (att : Att) (st : St) (ncS : String) :
    FbResult :=
  let filename := o.filenameAns
  if sIsEmpty filename then ⟨true, none, push st Event.cancelReported⟩
  else
    let built := some (Directive.createFile filename ncS)
    if sEndsWith filename pyExt then
      match o.pyValid ncS with
      | some err =>
        if isCorr then ⟨true, built, push st (Event.errorReport filename err)⟩
        else if o.corrAns 0 then ⟨true, built, att filename ncS err st⟩
        else ⟨true, built, push st (Event.errorReport filename err)⟩
      | none => fallbackCreateConfirm o st built filename ncS
    else fallbackCreateConfirm o st built filename ncS

/-- Diff display, confirmation and write of the fallback modification path.
The original content is `loaded_files.get(path, "")` (no disk read here). -/
def fallbackModifyApply (o : Oracles) (st : St) (built : Option Directive)
    (path ncS : String) : FbResult :=
  let original := (dget st.files path).getD ""
  let st := push st Event.fallbackModifyNotice
  let d := unified_diff ("a/" ++ path) ("b/" ++ path) (splitlines original) (splitlines ncS)
  let st := push st (Event.diffShown path d)
  let st := push st (Event.modifyConfirmAsked path)
  if o.confirmModify then
    if o.writeOk path ncS then
      ⟨true, built,
        { events := st.events ++ [Event.fileWritten path ncS],
          files := dinsert path ncS st.files }⟩
    else ⟨true, built, push st (Event.writeFailed path)⟩
  else ⟨true, built, push st Event.cancelReported⟩

/-- Validation and application once the fallback modification target path is
resolved (`if not path_to_modify: return False` guard included). -/
def fallbackModifyResolved (o : Oracles) (isCorr : Bool) (att : Att) (st : St)
    (path ncS : String) : FbResult :=
  if sIsEmpty path then ⟨false, none, st⟩
  else
    let built := some (Directive.modifyFile path ncS)
    if sEndsWith path pyExt then
      match o.pyValid ncS with
      | some err =>
        if isCorr then ⟨true, built, push st (Event.errorReport path err)⟩
        else if o.corrAns 0 then ⟨true, built, att path ncS err st⟩
        else ⟨true, built, push st (Event.errorReport path err)⟩
      | none => fallbackModifyApply o st built path ncS
    else fallbackModifyApply o st built path ncS

/-- The loaded-files branch of the fallback handler: one loaded file resolves
the path directly; several trigger the explicit selection step over the
sorted loaded paths (cancel, interrupt, or an out-of-range answer — which
`Prompt.ask(choices=...)` makes unreachable — construct no directive). -/
def fallbackModify (o : Oracles) (isCorr : Bool) (att : Att) (st : St) (ncS : String) :
    FbResult :=
  match st.files with
  | [] => ⟨false, none, st⟩
  | kv :: restFiles =>
    if restFiles.isEmpty then fallbackModifyResolved o isCorr att st kv.1 ncS
    else
      let fileList := sortStrings (dkeys st.files)
      let st := push st (Event.selectionAsked fileList)
      match o.selectAns with
      | none => ⟨true, none, push st Event.cancelReported⟩
      | some i =>
        if h : 1 ≤ i ∧ i ≤ fileList.length then
          fallbackModifyResolved o isCorr att st
            (fileList.get ⟨i - 1, by omega⟩) ncS
        else ⟨true, none, push st Event.cancelReported⟩

/-- `handle_fallback_code_block(response)`. -/
def handle_fallback_code_block (o : Oracles) (isCorr : Bool) (att : Att) (st : St)
    (response : String) : FbResult :=
  match findAllCodeBlocks response.data with
  | [] => ⟨false, none, st⟩
  | (lang0, raw0) :: restBlocks =>
    let sc := shellScan ((lang0, raw0) :: restBlocks)
    if sc.1 && !sc.2.isEmpty then
      let st := push st (Event.fallbackExecNotice sc.2.length)
      ⟨true, none, runCommands o 0 st sc.2⟩
    else
      let nc := pystripL raw0
      if nc.isEmpty then ⟨false, none, st⟩
      else
        let ncS := String.mk nc
        if st.files.isEmpty then
          fallbackCreate o isCorr att (push st Event.fallbackCreateNotice) ncS
        else
          fallbackModify o isCorr att st ncS

/-! ### Project creation (`handle_project_creation`) -/

/-- The "directory-from-split-filename" conversion: a stripped path ending in
`/` whose stripped content is nonempty and newline-free is merged into a
single name with empty content. -/
def convertEntry (pc : List Char × List Char) : List Char × List Char :=
  let path := pystripL pc.1
  let content := pystripL pc.2
  if endsWithL slashL path && !content.isEmpty && !content.contains '\n' then
    (path ++ content, [])
  else (path, content)

/-- `load_file` over the paths created by a confirmed project creation:
each created file is re-read into `loaded_files`; since its write just
succeeded, the re-read is modelled as returning the written content (glob
metacharacters in the path are not modelled). -/
def projFinish : List (String × String) → St → St
  | [], st => st
  | (p, c) :: rest, st =>
    projFinish rest
      { events := st.events ++ [Event.fileLoaded p], files := dinsert p c st.files }

/-- The application loop of a confirmed project creation: entries whose
(processed) path ends in `/` become `mkdir -p`; others are stripped of one
fenced wrapper, `.py` entries are validated — a validation failure either
reports (correction attempt or declined offer) and continues with the next
entry, or starts the self-correction continuation, abandoning the whole
loop; surviving entries are written and queued for context loading. -/
def projApply (o : Oracles) (isCorr : Bool) (att : Att) :
    List (List Char × List Char) → Nat → List (String × String) → St → St
  | [], _, created, st => projFinish created st
  | (path, content) :: rest, i, created, st =>
    let pathS := String.mk path
    if endsWithL slashL path then
      if o.mkdirOk pathS then
        projApply o isCorr att rest (i + 1) created (push st (Event.dirCreated pathS))
      else
        projApply o isCorr att rest (i + 1) created (push st (Event.dirFailed pathS))
    else
      let cwS := String.mk (stripFenceWrap content)
      let vres : Option String := if sEndsWith pathS pyExt then o.pyValid cwS else none
      match vres with
      | some err =>
        if isCorr then
          projApply o isCorr att rest (i + 1) created (push st (Event.errorReport pathS err))
        else if o.corrAns i then
          att pathS cwS err st
        else
          projApply o isCorr att rest (i + 1) created (push st (Event.errorReport pathS err))
      | none =>
        if o.writeOk pathS cwS then
          projApply o isCorr att rest (i + 1) (created ++ [(pathS, cwS)])
            (push st (Event.fileWritten pathS cwS))
        else
          projApply o isCorr att rest (i + 1) created (push st (Event.writeFailed pathS))

/-- `handle_project_creation` from the extracted `<file>` entries on: the
split-filename conversion, the table of planned paths, the single batch
confirmation, and on acceptance the application loop. -/
def project_creation_core (o : Oracles) (isCorr : Bool) (att : Att) (st : St)
    (entries : List (List Char × List Char)) : St :=
  if entries.isEmpty then st
  else
    let processed := entries.map convertEntry
    let st := push st (Event.tableShown (processed.map (fun pc => String.mk pc.1)))
    let st := push st (Event.confirmAsked processed.length)
    if o.confirmBatch then projApply o isCorr att processed 0 [] st
    else push st Event.cancelReported

/-- `handle_project_creation(response)`. -/
def handle_project_creation (o : Oracles) (isCorr : Bool) (att : Att) (st : St)
    (response : String) : St :=
  match findFirstBetween projOpenTag projCloseTag response.data with
  | none => st
  | some block =>
    let st :=
      match findFirstBetween explOpenTag explCloseTag block with
      | some e => push st (Event.planShown (pystrip (String.mk e)))
      | none => st
    project_creation_core o isCorr att st (findAllFileEntries block)

/-! ### File modifications (`handle_file_modifications`) -/

/-- Outcome of the validation/diff pass over a `<file_modifications>` batch:
either the collected error events, pending diff panels, cleaned contents
dict and valid count, or an abort carrying the failing entry for the
self-correction continuation. -/
inductive ScanOut where
  | done (events : List Event) (panels : List Event) (cleaned : PyDict) (count : Nat)
  | abort (events : List Event) (path code err : String)
deriving DecidableEq, Repr

/-- The per-entry loop of `handle_file_modifications` before confirmation:
strip the path, normalize the content, validate `.py` entries (a failure
reports-and-continues, or aborts into a correction cycle when the user
accepts the offer), and for surviving entries record the cleaned content
(dict assignment — a repeated path overwrites) and the diff panel computed
against `loaded_files` or, failing that, the disk. -/
def modScan (o : Oracles) (isCorr : Bool) (files : PyDict) :
    List (List Char × List Char) → Nat → List Event → List Event → PyDict → Nat → ScanOut
  | [], _, events, panels, cleaned, count => ScanOut.done events panels cleaned count
  | (pathRaw, contentRaw) :: rest, i, events, panels, cleaned, count =>
    let path := String.mk (pystripL pathRaw)
    let nc := String.mk (cleanContent contentRaw)
    let vres : Option String := if sEndsWith path pyExt then o.pyValid nc else none
    match vres with
    | some err =>
      if isCorr then
        modScan o isCorr files rest (i + 1)
          (events ++ [Event.errorReport path err]) panels cleaned count
      else if o.corrAns i then
        ScanOut.abort events path nc err
      else
        modScan o isCorr files rest (i + 1)
          (events ++ [Event.errorReport path err]) panels cleaned count
    | none =>
      let original :=
        match dget files path with
        | some c => c
        | none =>
          match o.diskRead path with
          | some c => c
          | none => ""
      let d := unified_diff ("a/" ++ path) ("b/" ++ path) (splitlines original) (splitlines nc)
      modScan o isCorr files rest (i + 1) events
        (panels ++ [Event.diffShown path d]) (dinsert path nc cleaned) (count + 1)

/-- The application loop of a confirmed modification batch, iterating the
cleaned-contents dict: `write_file` per path, and `loaded_files[path]` is
assigned only on write success. -/
def applyMods (o : Oracles) : PyDict → St → St
  | [], st => st
  | (p, c) :: rest, st =>
    if o.writeOk p c then
      applyMods o rest
        { events := st.events ++ [Event.fileWritten p c], files := dinsert p c st.files }
    else
      applyMods o rest (push st (Event.writeFailed p))

/-- `handle_file_modifications` from the extracted `<file>` entries on. -/
def file_modifications_core (o : Oracles) (isCorr : Bool) (att : Att) (st : St)
    (entries : List (List Char × List Char)) : St :=
  if entries.isEmpty then st
  else
    match modScan o isCorr st.files entries 0 st.events [] [] 0 with
    | ScanOut.abort events path code err => att path code err { st with events := events }
    | ScanOut.done events panels cleaned count =>
      if panels.isEmpty then { st with events := events }
      else
        let st' : St := { st with events := events ++ panels ++ [Event.confirmAsked count] }
        if o.confirmBatch then applyMods o cleaned st'
        else push st' Event.cancelReported

/-- `handle_file_modifications(response)`. -/
def handle_file_modifications (o : Oracles) (isCorr : Bool) (att : Att) (st : St)
    (response : String) : St :=
  match findFirstBetween modsOpenTag modsCloseTag response.data with
  | none => st
  | some block =>
    let st :=
      match findFirstBetween explOpenTag explCloseTag block with
      | some e => push st (Event.planShown (pystrip (String.mk e)))
      | none => st
    file_modifications_core o isCorr att st (findAllFileEntries block)

/-! ### Response dispatch and the bounded self-correction loop -/

/-- Python's `tag in response` (substring containment; every tag tested is
nonempty, for which first-occurrence search decides containment). -/
def containsTag (response : String) (tag : List Char) : Bool :=
  (splitFirst tag response.data).isSome || tag.isEmpty

/-- `_attempt_self_correction`: record the correction request, regenerate
through the model oracle, and — when the regenerated response is nonempty —
reprocess it through the given continuation (which carries
`is_correction_attempt=True`). -/
def attemptSelfCorrection (o : Oracles) (reprocess : St → String → St)
    (path code err : String) (st : St) : St :=
  let st := push st (Event.correctionRequested path code err)
  let regenerated := o.regen path code err
  if sIsEmpty (pystrip regenerated) then st else reprocess st regenerated

/-- Dead continuation used when `is_correction_attempt=True`: the handlers
never invoke their continuation in that mode. -/
def attemptStub : Att := fun _ _ _ st => st

/-- `process_response` dispatch: priority order `<project_creation>`,
`<file_modifications>`, `<shell>`, fenced-block fallback, on the stripped
response. -/
def dispatch (o : Oracles) (isCorr : Bool) (att : Att) (st : St) (response : String) : St :=
  let r := pystrip response
  if sIsEmpty r then st
  else if containsTag r projOpenTag then handle_project_creation o isCorr att st r
  else if containsTag r modsOpenTag then handle_file_modifications o isCorr att st r
  else if containsTag r shellOpenTag then handle_shell_execution o st r
  else (handle_fallback_code_block o isCorr att st r).st

/-- `process_response(response, is_correction_attempt=True)`: the reprocessing
of a regenerated response; its handlers never start another correction. -/
def process_response_corr (o : Oracles) (st : St) (response : String) : St :=
  dispatch o true attemptStub st response

/-- `process_response(response, is_correction_attempt)`.  The single-retry
recursion is encoded structurally: the top-level run (flag `false`) wires the
real `_attempt_self_correction`, whose reprocessing runs with flag `true`. -/
def process_response (o : Oracles) (isCorr : Bool) (st : St) (response : String) : St :=
  if isCorr then process_response_corr o st response
  else dispatch o false (attemptSelfCorrection o (process_response_corr o)) st response

/-! ### The ActionParser view (`parse`)

The pure directive-extraction layer of the pipeline, assembled from the very
same scanners the handlers run: it is a function of the response text and the
loaded-files keys only. -/

inductive Parsed where
  | projectCreation (ds : List Directive)
  | fileModifications (ds : List Directive)
  | shell (ds : List Directive)
  | fallbackShell (ds : List Directive)
  | fallbackModify (path content : String)
  | fallbackAwaitFilename (content : String)
  | fallbackAwaitSelection (candidates : List String) (content : String)
  | nothing
deriving DecidableEq, Repr

def parseEntriesProj (block : List Char) : List Directive :=
  (findAllFileEntries block).map (fun pc =>
    let conv := convertEntry pc
    if endsWithL slashL conv.1 then Directive.createDir (String.mk conv.1)
    else Directive.createFile (String.mk conv.1) (String.mk (stripFenceWrap conv.2)))

def parseEntriesMods (block : List Char) : List Directive :=
  (findAllFileEntries block).map (fun pc =>
    Directive.modifyFile (String.mk (pystripL pc.1)) (String.mk (cleanContent pc.2)))

def parse (response : String) (loadedKeys : List String) : Parsed :=
  let r := pystrip response
  if sIsEmpty r then Parsed.nothing
  else if containsTag r projOpenTag then
    match findFirstBetween projOpenTag projCloseTag r.data with
    | none => Parsed.nothing
    | some block => Parsed.projectCreation (parseEntriesProj block)
  else if containsTag r modsOpenTag then
    match findFirstBetween modsOpenTag modsCloseTag r.data with
    | none => Parsed.nothing
    | some block => Parsed.fileModifications (parseEntriesMods block)
  else if containsTag r shellOpenTag then
    Parsed.shell ((shellCmds r).map Directive.runShell)
  else
    match findAllCodeBlocks r.data with
    | [] => Parsed.nothing
    | (lang0, raw0) :: restBlocks =>
      let sc := shellScan ((lang0, raw0) :: restBlocks)
      if sc.1 && !sc.2.isEmpty then Parsed.fallbackShell (sc.2.map Directive.runShell)
      else
        let nc := pystripL raw0
        if nc.isEmpty then Parsed.nothing
        else
          match loadedKeys with
          | [] => Parsed.fallbackAwaitFilename (String.mk nc)
          | k :: ks =>
            if ks.isEmpty then Parsed.fallbackModify k (String.mk nc)
            else Parsed.fallbackAwaitSelection (sortStrings (k :: ks)) (String.mk nc)

/-! ### Auxiliary observations over traces -/

def isConfirmAsked : Event → Bool
  | Event.confirmAsked _ => true
  | _ => false

def isDiffShown : Event → Bool
  | Event.diffShown _ _ => true
  | _ => false

def isFileWritten : Event → Bool
  | Event.fileWritten _ _ => true
  | _ => false

def isDirCreated : Event → Bool
  | Event.dirCreated _ => true
  | _ => false

def isErrorReport : Event → Bool
  | Event.errorReport _ _ => true
  | _ => false

def isCorrReq : Event → Bool
  | Event.correctionRequested _ _ _ => true
  | _ => false

/-- Number of correction requests in a trace. -/
def countCorr (es : List Event) : Nat := (es.filter isCorrReq).length

/-- Number of successful file writes in a trace. -/
def countWrites (es : List Event) : Nat := (es.filter isFileWritten).length

/-- The path/content pair an entry contributes after the handler's
normalization (stripped path, stripped and fence-unwrapped content). -/
def cleanPair (pc : List Char × List Char) : String × String :=
  (String.mk (pystripL pc.1), String.mk (cleanContent pc.2))

/-- An entry passes validation: either its path has no `.py` extension, or
the validator accepts its normalized content. -/
def entryValid (o : Oracles) (pc : List Char × List Char) : Prop :=
  sEndsWith (cleanPair pc).1 pyExt = true → o.pyValid (cleanPair pc).2 = none

/-- Content of the last entry carrying the given path. -/
def lastVal (p : String) : List (String × String) → Option String
  | [] => none
  | (k, v) :: rest =>
    match lastVal p rest with
    | some w => some w
    | none => if k = p then some v else none

/-! ### Constructors of shell responses (for the shell-parsing claim) -/

def wrapShell (c : String) : String := "<shell>" ++ c ++ "</shell>"

/-- Interleave junk text and wrapped commands:
`j₀ <shell>c₀</shell> j₁ <shell>c₁</shell> … t`. -/
def mkShellResp : List (String × String) → String → String
  | [], t => t
  | (j, c) :: rest, t => j ++ (wrapShell c ++ mkShellResp rest t)

/-- The expected per-command interaction trace of `run_command` over a
command list: one confirmation per command, in textual order, each followed
by its own launch/run/cancel outcome. -/
def expectedRunEvents (o : Oracles) : Nat → List String → List Event
  | _, [] => []
  | i, c :: rest =>
    (Event.execConfirmAsked c ::
      (if o.execAns i then
        if sStartsWith (pystrip c) o.terminalLauncher then [Event.shellLaunched c]
        else [Event.shellRan c]
      else [Event.execCancelled c])) ++ expectedRunEvents o (i + 1) rest

/-! ### A concrete total environment (for counterexamples and witnesses)

Every confirmation is accepted, every write and mkdir succeeds, the
validator flags exactly the content `def f(:` (as Python `compile` does) with
its diagnostic, and regeneration returns the empty response. -/

def oracleAllYes : Oracles :=
  { pyValid := fun c => if c = "def f(:" then some "invalid syntax" else none
    corrAns := fun _ => true
    confirmBatch := true
    execAns := fun _ => true
    writeOk := fun _ _ => true
    mkdirOk := fun _ => true
    diskRead := fun _ => none
    filenameAns := ""
    selectAns := none
    confirmCreate := true
    confirmModify := true
    terminalLauncher := "xterm -e"
    regen := fun _ _ _ => "" }

/-- A modification batch whose first directive is valid and whose second
fails Python validation. -/
def respMixedBatch : String :=
  "<file_modifications><file path=\"a.py\">x = 1</file><file path=\"b.py\">def f(:</file></file_modifications>"

/-- A project creation with a split directory name whose merged form does not
end in a slash. -/
def respSplitDir : String :=
  "<project_creation><file path=\"src/\">utils</file></project_creation>"

/-! # Theorems -/

/-! ## C8: diffing a string against itself is empty -/

theorem lineDiffF_self : ∀ (a : List String) (fuel : Nat), a.length ≤ fuel →
    lineDiffF fuel a a = a.map DiffLine.context := by
  intro a
  induction a with
  | nil =>
    intro fuel _
    cases fuel <;> simp [lineDiffF]
  | cons x xs ih =>
    intro fuel hf
    cases fuel with
    | zero => simp at hf
    | succ f =>
      rw [lineDiffF]
      rw [if_pos rfl]
      rw [ih f (by simpa using hf)]
      simp

theorem lineDiff_self (a : List String) : lineDiff a a = a.map DiffLine.context :=
  lineDiffF_self a _ (by omega)

/-- C8: for every string `x`, the unified line diff of `x` against itself is
the empty diff result — no Context, Added or Removed lines (and no headers):
`difflib.unified_diff` emits nothing when original and proposed coincide. -/
theorem claim_C8 (fromfile tofile x : String) :
    unified_diff fromfile tofile (splitlines x) (splitlines x) = [] := by
  unfold unified_diff
  rw [lineDiff_self]
  rw [if_pos]
  rw [List.all_eq_true]
  intro d hd
  obtain ⟨s, _, rfl⟩ := List.mem_map.mp hd
  rfl

/-! ## C9: parsing is deterministic -/

/-- C9: directive extraction is a pure function of the response text and the
loaded-files state — two runs on identical inputs extract identical
directives.  (`parse` is assembled from the same scanners the handlers run,
with no other inputs: in this embedding the absence of hidden state or
randomness is witnessed by `parse` being a plain function of exactly these
two arguments.) -/
theorem claim_C9 (r₁ r₂ : String) (ks₁ ks₂ : List String)
    (h₁ : r₁ = r₂) (h₂ : ks₁ = ks₂) : parse r₁ ks₁ = parse r₂ ks₂ := by
  subst h₁
  subst h₂
  rfl

theorem claim_C9_witness :
    parse "<shell>ls -la</shell>" ["a.py"] = parse "<shell>ls -la</shell>" ["a.py"] :=
  claim_C9 _ _ _ _ rfl rfl

/-! ## C1, counterexample: a started correction cycle abandons the
already-valid directives of the batch -/

/-- C1 fails on the code: in `respMixedBatch` the first directive (`a.py`)
passes validation, the second (`b.py`) fails and a self-correction cycle is
started (the user accepts the offer, the regeneration comes back empty).
The claim says `a.py` still proceeds to diff display and confirmation and
can be applied; instead the whole handler returns at the
`_attempt_self_correction(...)`/`return` of `handle_file_modifications`
(src/ollama_cli.py:1144-1145), so the trace holds nothing but the
correction request: no diff is shown, no confirmation is asked, nothing is
written, for `a.py` or anything else. -/
theorem claim_C1_counterexample :
    process_response oracleAllYes false ⟨[], []⟩ respMixedBatch =
      ⟨[Event.correctionRequested "b.py" "def f(:" "invalid syntax"], []⟩ ∧
    (process_response oracleAllYes false ⟨[], []⟩ respMixedBatch).events.all
      (fun e => !isConfirmAsked e && !isDiffShown e && !isFileWritten e) = true := by
  constructor
  · decide
  · decide

/-! ## C2, counterexample: the merged name creates a directory only when it
still ends in a slash -/

/-- C2 fails on the code: for
`<project_creation><file path="src/">utils</file></project_creation>` the
entry is indeed converted (merged name `src/utils`, empty content), but on
confirmation the apply loop of `handle_project_creation` re-tests
`path.endswith('/')` on the merged name (src/ollama_cli.py:1068), which no
longer ends in `/`; so `write_file` creates an empty FILE `src/utils` and
no directory-creation call is made. -/
theorem claim_C2_counterexample :
    process_response oracleAllYes false ⟨[], []⟩ respSplitDir =
      ⟨[Event.tableShown ["src/utils"], Event.confirmAsked 1,
        Event.fileWritten "src/utils" "", Event.fileLoaded "src/utils"],
       [("src/utils", "")]⟩ ∧
    (process_response oracleAllYes false ⟨[], []⟩ respSplitDir).events.all
      (fun e => !isDirCreated e) = true ∧
    Event.fileWritten "src/utils" "" ∈
      (process_response oracleAllYes false ⟨[], []⟩ respSplitDir).events := by
  refine ⟨by decide, by decide, by decide⟩

/-- C2 as amended: an entry whose stripped path ends in `/` with nonempty,
newline-free single-line stripped content is converted — path and content
merged into one name, content emptied — and on confirmation a directory
(with parents) is created at that name ONLY IF the merged name itself still
ends in `/`; otherwise an empty file is written (and loaded) at that name. -/
theorem claim_C2_amended (o : Oracles) (att : Att) (st : St) (p c : List Char)
    (hslash : endsWithL slashL (pystripL p) = true)
    (hne : (pystripL c).isEmpty = false)
    (hnl : (pystripL c).contains '\n' = false)
    (hconf : o.confirmBatch = true)
    (hpy : sEndsWith (String.mk (pystripL p ++ pystripL c)) pyExt = false)
    (hmk : o.mkdirOk (String.mk (pystripL p ++ pystripL c)) = true)
    (hwr : o.writeOk (String.mk (pystripL p ++ pystripL c)) "" = true) :
    convertEntry (p, c) = (pystripL p ++ pystripL c, []) ∧
    (endsWithL slashL (pystripL p ++ pystripL c) = true →
      project_creation_core o false att st [(p, c)] =
        { st with events := st.events ++
            [Event.tableShown [String.mk (pystripL p ++ pystripL c)],
             Event.confirmAsked 1,
             Event.dirCreated (String.mk (pystripL p ++ pystripL c))] }) ∧
    (endsWithL slashL (pystripL p ++ pystripL c) = false →
      project_creation_core o false att st [(p, c)] =
        { events := st.events ++
            [Event.tableShown [String.mk (pystripL p ++ pystripL c)],
             Event.confirmAsked 1,
             Event.fileWritten (String.mk (pystripL p ++ pystripL c)) "",
             Event.fileLoaded (String.mk (pystripL p ++ pystripL c))],
          files := dinsert (String.mk (pystripL p ++ pystripL c)) "" st.files }) := by
  have hconv : convertEntry (p, c) = (pystripL p ++ pystripL c, []) := by
    unfold convertEntry
    simp only [hslash, hne, hnl]
    simp
  refine ⟨hconv, ?_, ?_⟩
  · intro hs
    unfold project_creation_core
    simp only [List.isEmpty_cons, List.map_cons, List.map_nil, hconv, if_false, Bool.false_eq_true]
    rw [if_pos hconf]
    unfold projApply
    rw [if_pos hs, if_pos hmk]
    unfold projApply projFinish
    simp [push, List.append_assoc]
  · intro hs
    unfold project_creation_core
    simp only [List.isEmpty_cons, List.map_cons, List.map_nil, hconv, if_false, Bool.false_eq_true]
    rw [if_pos hconf]
    unfold projApply
    rw [if_neg (by simp [hs])]
    have hwrap : stripFenceWrap ([] : List Char) = [] := rfl
    rw [hwrap] at *
    simp only [hpy, if_false, Bool.false_eq_true]
    rw [if_pos hwr]
    unfold projApply projFinish projFinish
    simp [push, List.append_assoc]

/-- Witness for the amended C2 at concrete inputs: the hypotheses hold for
the entry `path="src/"`, `content="utils"` under the all-yes environment. -/
theorem claim_C2_witness :
    convertEntry ("src/".data, "utils".data) = ("src/utils".data, []) ∧
    project_creation_core oracleAllYes false attemptStub ⟨[], []⟩
        [("src/".data, "utils".data)] =
      ⟨[Event.tableShown [String.mk "src/utils".data], Event.confirmAsked 1,
        Event.fileWritten (String.mk "src/utils".data) "",
        Event.fileLoaded (String.mk "src/utils".data)],
       dinsert (String.mk "src/utils".data) "" []⟩ := by
  have h := claim_C2_amended oracleAllYes attemptStub ⟨[], []⟩ "src/".data "utils".data
    (by decide) (by decide) (by decide) (by decide) (by decide) (by decide) (by decide)
  exact ⟨by decide, (h.2.2 (by decide))⟩

/-! ## Dict lemmas -/

theorem dget_dinsert_self : ∀ (d : PyDict) (k v : String), dget (dinsert k v d) k = some v := by
  intro d k v
  induction d with
  | nil => simp [dinsert, dget]
  | cons kv rest ih =>
    by_cases h : kv.1 = k
    · simp [dinsert, h, dget]
    · simp [dinsert, h, dget, ih]

theorem dget_dinsert_ne : ∀ (d : PyDict) (k v p : String), k ≠ p →
    dget (dinsert k v d) p = dget d p := by
  intro d k v p hne
  induction d with
  | nil => simp [dinsert, dget, hne]
  | cons kv rest ih =>
    by_cases h : kv.1 = k
    · simp only [dinsert, h, if_pos rfl, dget]
      rw [if_neg hne, if_neg (h ▸ hne)]
    · simp only [dinsert, if_neg h, dget]
      by_cases h2 : kv.1 = p
      · rw [if_pos h2, if_pos h2]
      · rw [if_neg h2, if_neg h2, ih]

theorem dkeys_dinsert (k v : String) : ∀ (d : PyDict),
    dkeys (dinsert k v d) = if k ∈ dkeys d then dkeys d else dkeys d ++ [k] := by
  intro d
  induction d with
  | nil => simp [dinsert, dkeys]
  | cons kv rest ih =>
    by_cases h : kv.1 = k
    · simp [dinsert, h, dkeys]
    · have hne : ¬ k = kv.1 := fun he => h he.symm
      simp only [dinsert, if_neg h, dkeys, List.map_cons, List.mem_cons, hne, false_or]
      simp only [dkeys] at ih
      rw [ih]
      by_cases h2 : k ∈ List.map (fun kv : String × String => kv.1) rest
      · rw [if_pos h2, if_pos h2]
      · rw [if_neg h2, if_neg h2]
        simp

theorem nodup_dkeys_dinsert (k v : String) (d : PyDict) (h : (dkeys d).Nodup) :
    (dkeys (dinsert k v d)).Nodup := by
  rw [dkeys_dinsert]
  by_cases hm : k ∈ dkeys d
  · rw [if_pos hm]; exact h
  · rw [if_neg hm]
    simp only [List.nodup_append, List.nodup_cons, List.not_mem_nil, not_false_iff,
      List.nodup_nil, and_true, true_and]
    simp only [List.disjoint_singleton]
    exact ⟨h, hm⟩

theorem nodup_foldl_dinsert :
    ∀ (ps : List (String × String)) (d : PyDict), (dkeys d).Nodup →
      (dkeys (List.foldl (fun d pc => dinsert pc.1 pc.2 d) d ps)).Nodup := by
  intro ps
  induction ps with
  | nil => intro d h; exact h
  | cons pc rest ih =>
    intro d h
    exact ih _ (nodup_dkeys_dinsert pc.1 pc.2 d h)

theorem mem_dkeys_of_mem {d : PyDict} {p c : String} (h : (p, c) ∈ d) : p ∈ dkeys d :=
  List.mem_map.mpr ⟨(p, c), h, rfl⟩

/-! ## applyMods characterization -/

/-- The events appended by the modification apply loop. -/
def applyEvents (o : Oracles) (items : PyDict) : List Event :=
  items.map (fun pc =>
    if o.writeOk pc.1 pc.2 then Event.fileWritten pc.1 pc.2 else Event.writeFailed pc.1)

/-- The FileState produced by the modification apply loop: each successfully
written pair is inserted, a failed write leaves the state alone. -/
def applyFiles (o : Oracles) (fs : PyDict) (items : PyDict) : PyDict :=
  List.foldl (fun fs pc => if o.writeOk pc.1 pc.2 then dinsert pc.1 pc.2 fs else fs) fs items

theorem applyMods_eq (o : Oracles) :
    ∀ (items : PyDict) (st : St),
      applyMods o items st = ⟨st.events ++ applyEvents o items, applyFiles o st.files items⟩ := by
  intro items
  induction items with
  | nil => intro st; simp [applyMods, applyEvents, applyFiles]
  | cons pc rest ih =>
    intro st
    obtain ⟨p, c⟩ := pc
    by_cases h : o.writeOk p c = true
    · rw [show applyMods o ((p, c) :: rest) st =
          applyMods o rest
            { events := st.events ++ [Event.fileWritten p c], files := dinsert p c st.files }
        by simp [applyMods, h]]
      rw [ih]
      simp [applyEvents, applyFiles, h, List.append_assoc]
    · rw [show applyMods o ((p, c) :: rest) st =
          applyMods o rest (push st (Event.writeFailed p)) by simp [applyMods, h]]
      rw [ih]
      simp only [Bool.not_eq_true] at h
      simp [applyEvents, applyFiles, h, push, List.append_assoc]

theorem dget_applyFiles_not_mem (o : Oracles) :
    ∀ (items : PyDict) (fs : PyDict) (p : String), p ∉ dkeys items →
      dget (applyFiles o fs items) p = dget fs p := by
  intro items
  induction items with
  | nil => intro fs p _; rfl
  | cons kv rest ih =>
    intro fs p hp
    have hk : kv.1 ≠ p := by
      intro he
      exact hp (he ▸ List.mem_cons_self _ _)
    have hr : p ∉ dkeys rest := fun hm => hp (List.mem_cons_of_mem _ hm)
    obtain ⟨k, v⟩ := kv
    by_cases h : o.writeOk k v = true
    · rw [show applyFiles o fs ((k, v) :: rest) = applyFiles o (dinsert k v fs) rest by
        simp [applyFiles, h]]
      rw [ih _ _ hr, dget_dinsert_ne _ _ _ _ hk]
    · rw [show applyFiles o fs ((k, v) :: rest) = applyFiles o fs rest by
        simp [applyFiles, h]]
      exact ih _ _ hr

theorem dget_applyFiles_mem (o : Oracles) :
    ∀ (items : PyDict) (fs : PyDict) (p c : String),
      (dkeys items).Nodup → (p, c) ∈ items →
      (o.writeOk p c = true → dget (applyFiles o fs items) p = some c) ∧
      (o.writeOk p c = false → dget (applyFiles o fs items) p = dget fs p) := by
  intro items
  induction items with
  | nil => intro fs p c _ hm; simp at hm
  | cons kv rest ih =>
    intro fs p c hnodup hm
    have hnodup' := hnodup
    rw [show dkeys (kv :: rest) = kv.1 :: dkeys rest from rfl, List.nodup_cons] at hnodup'
    obtain ⟨k, v⟩ := kv
    rcases List.mem_cons.mp hm with hh | ht
    · cases hh
      have hnr : p ∉ dkeys rest := hnodup'.1
      constructor
      · intro hw
        rw [show applyFiles o fs ((p, c) :: rest) = applyFiles o (dinsert p c fs) rest by
          simp [applyFiles, hw]]
        rw [dget_applyFiles_not_mem o rest _ p hnr, dget_dinsert_self]
      · intro hw
        rw [show applyFiles o fs ((p, c) :: rest) = applyFiles o fs rest by
          simp [applyFiles, hw]]
        exact dget_applyFiles_not_mem o rest _ p hnr
    · have hpr : p ∈ dkeys rest := mem_dkeys_of_mem ht
      have hk : k ≠ p := by
        intro he
        exact hnodup'.1 (he ▸ hpr)
      by_cases h : o.writeOk k v = true
      · rw [show applyFiles o fs ((k, v) :: rest) = applyFiles o (dinsert k v fs) rest by
          simp [applyFiles, h]]
        have := ih (dinsert k v fs) p c hnodup'.2 ht
        exact ⟨this.1, fun hw => (this.2 hw).trans (dget_dinsert_ne _ _ _ _ hk)⟩
      · rw [show applyFiles o fs ((k, v) :: rest) = applyFiles o fs rest by
          simp [applyFiles, h]]
        exact ih fs p c hnodup'.2 ht

/-! ## modScan structure lemmas -/

theorem modScan_done_cleaned (o : Oracles) (isCorr : Bool) (files : PyDict) :
    ∀ (entries : List (List Char × List Char)) i ev pan cl cnt ev' pan' cl' cnt',
      modScan o isCorr files entries i ev pan cl cnt = ScanOut.done ev' pan' cl' cnt' →
      ∃ ps : List (String × String),
        cl' = List.foldl (fun d pc => dinsert pc.1 pc.2 d) cl ps := by
  intro entries
  induction entries with
  | nil =>
    intro i ev pan cl cnt ev' pan' cl' cnt' h
    rw [modScan] at h
    cases h
    exact ⟨[], rfl⟩
  | cons pc rest ih =>
    intro i ev pan cl cnt ev' pan' cl' cnt' h
    obtain ⟨pathRaw, contentRaw⟩ := pc
    rw [modScan] at h
    simp only at h
    split at h
    · split at h
      · obtain ⟨ps, hps⟩ := ih _ _ _ _ _ _ _ _ _ h
        exact ⟨ps, hps⟩
      · split at h
        · cases h
        · obtain ⟨ps, hps⟩ := ih _ _ _ _ _ _ _ _ _ h
          exact ⟨ps, hps⟩
    · obtain ⟨ps, hps⟩ := ih _ _ _ _ _ _ _ _ _ h
      exact ⟨(String.mk (pystripL pathRaw), String.mk (cleanContent contentRaw)) :: ps, hps⟩

/-! ## C5: FileState overwritten only after a successful write -/

/-- C5: for a path of a confirmed modification batch, `loaded_files[path]`
receives the new content exactly when the disk write succeeded; when
`write_file` fails for that path, the FileState entry is left unchanged. -/
theorem claim_C5 (o : Oracles) (isCorr : Bool) (att : Att) (st : St)
    (entries : List (List Char × List Char)) (events' panels : List Event)
    (cleaned : PyDict) (count : Nat) (p c : String)
    (hdone : modScan o isCorr st.files entries 0 st.events [] [] 0 =
      ScanOut.done events' panels cleaned count)
    (hne : entries ≠ []) (hpan : panels ≠ [])
    (hconf : o.confirmBatch = true)
    (hmem : (p, c) ∈ cleaned) :
    (o.writeOk p c = true →
      dget (file_modifications_core o isCorr att st entries).files p = some c) ∧
    (o.writeOk p c = false →
      dget (file_modifications_core o isCorr att st entries).files p = dget st.files p) := by
  have hch : file_modifications_core o isCorr att st entries =
      applyMods o cleaned
        { st with events := events' ++ panels ++ [Event.confirmAsked count] } := by
    unfold file_modifications_core
    rw [if_neg (by simp [hne])]
    rw [hdone]
    simp only
    rw [if_neg (by simp [hpan]), if_pos hconf]
  rw [hch, applyMods_eq]
  have hnod : (dkeys cleaned).Nodup := by
    obtain ⟨ps, hps⟩ := modScan_done_cleaned o isCorr st.files entries _ _ _ _ _ _ _ _ _ hdone
    rw [hps]
    exact nodup_foldl_dinsert ps [] (by simp [dkeys])
  exact dget_applyFiles_mem o cleaned st.files p c hnod hmem

theorem claim_C5_witness :
    dget (file_modifications_core oracleAllYes false attemptStub ⟨[], [("a.txt", "old")]⟩
        [("a.txt".data, "hello".data)]).files "a.txt" = some "hello" :=
  (claim_C5 oracleAllYes false attemptStub ⟨[], [("a.txt", "old")]⟩
      [("a.txt".data, "hello".data)] []
      [Event.diffShown "a.txt"
        [DiffLine.header "--- a/a.txt", DiffLine.header "+++ b/a.txt",
         DiffLine.removed "old", DiffLine.added "hello"]]
      [("a.txt", "hello")] 1 "a.txt" "hello"
      (by decide) (by decide) (by decide) (by decide) (by decide)).1 (by decide)

/-! ## C4: declining the batch confirmation is a no-op -/

/-- C4: in both batch handlers, when the user declines the single batch
confirmation no mutation occurs: no file write, no directory creation, the
FileState is exactly unchanged, and the cancellation is recorded on the
trace (not silently dropped).  The conclusions pin the resulting state
exactly: the trace gains only the table/diff display, the confirmation
question, and the cancellation notice; `files` is `st.files`. -/
theorem claim_C4 :
    (∀ (o : Oracles) (isCorr : Bool) (att : Att) (st : St)
        (entries : List (List Char × List Char)),
       entries ≠ [] → o.confirmBatch = false →
       project_creation_core o isCorr att st entries =
         { st with events := st.events ++
             [Event.tableShown ((entries.map convertEntry).map (fun pc => String.mk pc.1)),
              Event.confirmAsked (entries.map convertEntry).length,
              Event.cancelReported] }) ∧
    (∀ (o : Oracles) (isCorr : Bool) (att : Att) (st : St)
        (entries : List (List Char × List Char))
        (events' panels : List Event) (cleaned : PyDict) (count : Nat),
       entries ≠ [] → o.confirmBatch = false →
       modScan o isCorr st.files entries 0 st.events [] [] 0 =
         ScanOut.done events' panels cleaned count →
       panels ≠ [] →
       file_modifications_core o isCorr att st entries =
         { st with events :=
             events' ++ panels ++ [Event.confirmAsked count, Event.cancelReported] }) := by
  constructor
  · intro o isCorr att st entries hne hconf
    unfold project_creation_core
    rw [if_neg (by simp [hne])]
    simp only [hconf, Bool.false_eq_true, if_false]
    simp [push, List.append_assoc]
  · intro o isCorr att st entries events' panels cleaned count hne hconf hdone hpan
    unfold file_modifications_core
    rw [if_neg (by simp [hne])]
    rw [hdone]
    simp only
    rw [if_neg (by simp [hpan])]
    simp only [hconf, Bool.false_eq_true, if_false]
    simp [push, List.append_assoc]

theorem claim_C4_witness :
    (project_creation_core { oracleAllYes with confirmBatch := false } false attemptStub
        ⟨[], []⟩ [("a.txt".data, "hello".data)] =
      { events := [Event.tableShown ["a.txt"], Event.confirmAsked 1, Event.cancelReported],
        files := [] }) ∧
    (file_modifications_core { oracleAllYes with confirmBatch := false } false attemptStub
        ⟨[], []⟩ [("a.txt".data, "hello".data)] =
      { events :=
          [Event.diffShown "a.txt"
            [DiffLine.header "--- a/a.txt", DiffLine.header "+++ b/a.txt",
             DiffLine.added "hello"],
           Event.confirmAsked 1, Event.cancelReported],
        files := [] }) := by
  constructor
  · have h := claim_C4.1 { oracleAllYes with confirmBatch := false } false attemptStub
      ⟨[], []⟩ [("a.txt".data, "hello".data)] (by decide) (by decide)
    exact h.trans (by decide)
  · have h := claim_C4.2 { oracleAllYes with confirmBatch := false } false attemptStub
      ⟨[], []⟩ [("a.txt".data, "hello".data)] []
      [Event.diffShown "a.txt"
        [DiffLine.header "--- a/a.txt", DiffLine.header "+++ b/a.txt",
         DiffLine.added "hello"]]
      [("a.txt", "hello")] 1 (by decide) (by decide) (by decide) (by decide)
    exact h.trans (by decide)

/-! ## lastVal lemmas (for the duplicate-path claim) -/

theorem dget_foldl_dinsert :
    ∀ (ps : List (String × String)) (d : PyDict) (p : String),
      dget (List.foldl (fun d pc => dinsert pc.1 pc.2 d) d ps) p =
        (match lastVal p ps with
         | some w => some w
         | none => dget d p) := by
  intro ps
  induction ps with
  | nil => intro d p; rfl
  | cons kv rest ih =>
    intro d p
    obtain ⟨k, v⟩ := kv
    rw [List.foldl_cons, ih]
    cases hlv : lastVal p rest with
    | some w => simp [lastVal, hlv]
    | none =>
      simp only [lastVal, hlv]
      by_cases hk : k = p
      · subst hk
        simp [dget_dinsert_self]
      · simp [hk, dget_dinsert_ne _ _ _ _ hk]

theorem dget_foldl_dinsert_nil (ps : List (String × String)) (p : String) :
    dget (List.foldl (fun d pc => dinsert pc.1 pc.2 d) [] ps) p = lastVal p ps := by
  rw [dget_foldl_dinsert]
  cases lastVal p ps <;> rfl

theorem lastVal_some_mem : ∀ (d : List (String × String)) (p w : String),
    lastVal p d = some w → p ∈ dkeys d := by
  intro d
  induction d with
  | nil => intro p w h; simp [lastVal] at h
  | cons kv rest ih =>
    intro p w h
    obtain ⟨k, v⟩ := kv
    rw [lastVal] at h
    cases hlv : lastVal p rest with
    | some w' =>
      rw [hlv] at h
      exact List.mem_cons_of_mem _ (ih p w' hlv)
    | none =>
      rw [hlv] at h
      by_cases hk : k = p
      · exact hk ▸ List.mem_cons_self _ _
      · rw [if_neg hk] at h
        cases h

theorem lastVal_eq_dget_of_nodup : ∀ (d : PyDict), (dkeys d).Nodup →
    ∀ p, lastVal p d = dget d p := by
  intro d
  induction d with
  | nil => intro _ p; rfl
  | cons kv rest ih =>
    intro hnodup p
    obtain ⟨k, v⟩ := kv
    rw [show dkeys ((k, v) :: rest) = k :: dkeys rest from rfl, List.nodup_cons] at hnodup
    simp only [lastVal, dget]
    cases hlv : lastVal p rest with
    | some w =>
      have hpk : ¬ k = p := by
        intro he
        exact hnodup.1 (he ▸ lastVal_some_mem rest p w hlv)
      have hd := ih hnodup.2 p
      rw [hlv] at hd
      simp [hpk, ← hd]
    | none =>
      have hd := ih hnodup.2 p
      rw [hlv] at hd
      by_cases hk : k = p
      · simp [hk]
      · simp [hk, ← hd]

/-! ## modScan on an all-valid batch -/

theorem modScan_all_valid (o : Oracles) (isCorr : Bool) (files : PyDict) :
    ∀ (entries : List (List Char × List Char)) (i : Nat) (ev pan : List Event)
      (cl : PyDict) (cnt : Nat),
      (∀ pc ∈ entries, entryValid o pc) →
      ∃ newPanels : List Event,
        modScan o isCorr files entries i ev pan cl cnt =
          ScanOut.done ev (pan ++ newPanels)
            (List.foldl (fun d pc => dinsert pc.1 pc.2 d) cl (entries.map cleanPair))
            (cnt + entries.length) ∧
        newPanels.length = entries.length ∧
        (∀ e ∈ newPanels, isDiffShown e = true) := by
  intro entries
  induction entries with
  | nil =>
    intro i ev pan cl cnt _
    exact ⟨[], by simp [modScan], rfl, by simp⟩
  | cons pc rest ih =>
    intro i ev pan cl cnt hval
    obtain ⟨pathRaw, contentRaw⟩ := pc
    have hv := hval _ (List.mem_cons_self _ _)
    unfold entryValid cleanPair at hv
    simp only at hv
    have hvres :
        (if sEndsWith (String.mk (pystripL pathRaw)) pyExt then
            o.pyValid (String.mk (cleanContent contentRaw))
          else none) = none := by
      by_cases hp : sEndsWith (String.mk (pystripL pathRaw)) pyExt = true
      · rw [if_pos hp]
        exact hv hp
      · rw [if_neg hp]
    obtain ⟨np, hnp, hlen, hdiff⟩ :=
      ih (i + 1) ev
        (pan ++ [Event.diffShown (String.mk (pystripL pathRaw))
          (unified_diff ("a/" ++ String.mk (pystripL pathRaw))
            ("b/" ++ String.mk (pystripL pathRaw))
            (splitlines
              (match dget files (String.mk (pystripL pathRaw)) with
               | some c => c
               | none =>
                 match o.diskRead (String.mk (pystripL pathRaw)) with
                 | some c => c
                 | none => ""))
            (splitlines (String.mk (cleanContent contentRaw))))])
        (dinsert (String.mk (pystripL pathRaw)) (String.mk (cleanContent contentRaw)) cl)
        (cnt + 1)
        (fun pc h => hval pc (List.mem_cons_of_mem _ h))
    refine ⟨Event.diffShown (String.mk (pystripL pathRaw))
        (unified_diff ("a/" ++ String.mk (pystripL pathRaw))
          ("b/" ++ String.mk (pystripL pathRaw))
          (splitlines
            (match dget files (String.mk (pystripL pathRaw)) with
             | some c => c
             | none =>
               match o.diskRead (String.mk (pystripL pathRaw)) with
               | some c => c
               | none => ""))
          (splitlines (String.mk (cleanContent contentRaw)))) :: np, ?_, by simp [hlen], ?_⟩
    · rw [modScan]
      simp only [hvres]
      rw [hnp]
      have hcnt : cnt + 1 + rest.length = cnt + (rest.length + 1) := by omega
      simp [hcnt, List.append_assoc, cleanPair]
    · intro e he
      rcases List.mem_cons.mp he with he | he
      · subst he; rfl
      · exact hdiff e he

/-! ## Write-count lemmas -/

theorem countWrites_append (a b : List Event) :
    countWrites (a ++ b) = countWrites a + countWrites b := by
  simp [countWrites, List.filter_append]

theorem countWrites_of_no_writes {es : List Event}
    (h : ∀ e ∈ es, isFileWritten e = false) : countWrites es = 0 := by
  unfold countWrites
  rw [List.filter_eq_nil_iff.mpr (by intro e he; simp [h e he])]
  rfl

theorem countWrites_map_fileWritten (items : PyDict) :
    countWrites (items.map (fun pc => Event.fileWritten pc.1 pc.2)) = items.length := by
  induction items with
  | nil => rfl
  | cons pc rest ih => simp [countWrites, isFileWritten, List.filter] at ih ⊢; omega

theorem applyEvents_all_ok (o : Oracles) (items : PyDict)
    (hw : ∀ p c, o.writeOk p c = true) :
    applyEvents o items = items.map (fun pc => Event.fileWritten pc.1 pc.2) := by
  unfold applyEvents
  apply List.map_congr_left
  intro pc _
  rw [hw pc.1 pc.2]
  simp

theorem applyFiles_all_ok (o : Oracles) (fs : PyDict) (items : PyDict)
    (hw : ∀ p c, o.writeOk p c = true) :
    applyFiles o fs items = List.foldl (fun d pc => dinsert pc.1 pc.2 d) fs items := by
  unfold applyFiles
  congr 1
  funext d pc
  rw [hw pc.1 pc.2]
  simp

/-! ## C10: duplicate paths — last entry wins, count counts every entry -/

/-- C10: for a `<file_modifications>` batch of syntactically valid entries,
the confirmation prompt announces one modification per valid entry
(`entries.length`), while on acceptance the dict of cleaned contents is
written — one write per DISTINCT path, each path receiving (and FileState
storing) the content of the LAST entry with that path.  The closing conjunct
exhibits the gap at a concrete duplicate-path batch: two entries with path
`a.txt` announce 2 modifications but perform exactly 1 write, storing the
second entry's content. -/
theorem claim_C10 :
    (∀ (o : Oracles) (att : Att) (st : St) (entries : List (List Char × List Char)),
       (∀ pc ∈ entries, entryValid o pc) →
       entries ≠ [] →
       o.confirmBatch = true →
       (∀ p c, o.writeOk p c = true) →
       Event.confirmAsked entries.length ∈
         (file_modifications_core o false att st entries).events ∧
       countWrites (file_modifications_core o false att st entries).events =
         countWrites st.events +
           (List.foldl (fun d pc => dinsert pc.1 pc.2 d) [] (entries.map cleanPair)).length ∧
       (∀ p, dget (file_modifications_core o false att st entries).files p =
          match lastVal p (entries.map cleanPair) with
          | some w => some w
          | none => dget st.files p)) ∧
    (Event.confirmAsked 2 ∈ (file_modifications_core oracleAllYes false attemptStub ⟨[], []⟩
        [("a.txt".data, "one".data), ("a.txt".data, "two".data)]).events ∧
     countWrites (file_modifications_core oracleAllYes false attemptStub ⟨[], []⟩
        [("a.txt".data, "one".data), ("a.txt".data, "two".data)]).events = 1 ∧
     dget (file_modifications_core oracleAllYes false attemptStub ⟨[], []⟩
        [("a.txt".data, "one".data), ("a.txt".data, "two".data)]).files "a.txt" = some "two") := by
  constructor
  · intro o att st entries hval hne hconf hw
    obtain ⟨np, hnp, hlen, hdiff⟩ :=
      modScan_all_valid o false st.files entries 0 st.events [] [] 0 hval
    have hnpne : np ≠ [] := by
      intro h
      rw [h] at hlen
      exact hne (List.length_eq_zero.mp hlen.symm)
    have hch : file_modifications_core o false att st entries =
        applyMods o (List.foldl (fun d pc => dinsert pc.1 pc.2 d) [] (entries.map cleanPair))
          { st with events := st.events ++ ([] ++ np) ++
              [Event.confirmAsked (0 + entries.length)] } := by
      unfold file_modifications_core
      rw [if_neg (by simp [hne])]
      rw [hnp]
      simp only
      rw [if_neg (by simp [hnpne])]
      rw [if_pos hconf]
    rw [hch, applyMods_eq, applyEvents_all_ok o _ hw, applyFiles_all_ok o _ _ hw]
    simp only [List.nil_append, Nat.zero_add]
    refine ⟨?_, ?_, ?_⟩
    · simp
    · have hnw : ∀ e ∈ np, isFileWritten e = false := by
        intro e he
        have := hdiff e he
        cases e <;> simp_all [isDiffShown, isFileWritten]
      rw [countWrites_append, countWrites_append, countWrites_append,
        countWrites_map_fileWritten, countWrites_of_no_writes hnw]
      have hconfz : countWrites [Event.confirmAsked entries.length] = 0 := rfl
      rw [hconfz]
      omega
    · intro p
      rw [dget_foldl_dinsert]
      have hnod : (dkeys (List.foldl (fun d pc => dinsert pc.1 pc.2 d) []
          (entries.map cleanPair))).Nodup :=
        nodup_foldl_dinsert _ [] (by simp [dkeys])
      rw [lastVal_eq_dget_of_nodup _ hnod p, dget_foldl_dinsert_nil]
  · refine ⟨by decide, by decide, by decide⟩

theorem claim_C10_witness :
    Event.confirmAsked 1 ∈
      (file_modifications_core oracleAllYes false attemptStub ⟨[], []⟩
        [("a.txt".data, "hello".data)]).events :=
  ((claim_C10.1 oracleAllYes attemptStub ⟨[], []⟩ [("a.txt".data, "hello".data)]
      (by
        intro pc h
        simp only [List.mem_singleton] at h
        subst h
        unfold entryValid
        intro hp
        exact absurd hp (by decide))
      (by decide) (by decide) (by intro p c; rfl)).1)

/-! ## C1 (amended): a started correction cycle abandons the batch -/

theorem modScan_abort_events (o : Oracles) (isCorr : Bool) (files : PyDict) :
    ∀ (entries : List (List Char × List Char)) i ev pan cl cnt ev' p c e,
      modScan o isCorr files entries i ev pan cl cnt = ScanOut.abort ev' p c e →
      ∃ errs, ev' = ev ++ errs ∧ ∀ x ∈ errs, isErrorReport x = true := by
  intro entries
  induction entries with
  | nil =>
    intro i ev pan cl cnt ev' p c e h
    rw [modScan] at h
    cases h
  | cons pc rest ih =>
    intro i ev pan cl cnt ev' p c e h
    obtain ⟨pathRaw, contentRaw⟩ := pc
    rw [modScan] at h
    simp only at h
    split at h
    · split at h
      · obtain ⟨errs, he, hall⟩ := ih _ _ _ _ _ _ _ _ _ h
        rw [List.append_assoc] at he
        refine ⟨_, he, ?_⟩
        intro x hx
        rcases List.mem_append.mp hx with hx | hx
        · simp only [List.mem_singleton] at hx
          subst hx
          rfl
        · exact hall x hx
      · split at h
        · cases h
          exact ⟨[], by simp, by simp⟩
        · obtain ⟨errs, he, hall⟩ := ih _ _ _ _ _ _ _ _ _ h
          rw [List.append_assoc] at he
          refine ⟨_, he, ?_⟩
          intro x hx
          rcases List.mem_append.mp hx with hx | hx
          · simp only [List.mem_singleton] at hx
            subst hx
            rfl
          · exact hall x hx
    · obtain ⟨errs, he, hall⟩ := ih _ _ _ _ _ _ _ _ _ h
      exact ⟨errs, he, hall⟩

/-- C1 as amended: when a directive of a `<file_modifications>` batch fails
validation and a self-correction cycle is started, the whole handler returns
into the correction continuation immediately — the batch's already-valid
directives are NOT diffed, confirmed or applied in that run (everything on
the trace before the correction is validation-failure reports); the
already-valid directives proceed to the batch confirmation only in runs
where no correction cycle is started (the scan completes). -/
theorem claim_C1_amended :
    (∀ (o : Oracles) (att : Att) (st : St) (entries : List (List Char × List Char))
        (events' : List Event) (p c e : String),
       entries ≠ [] →
       modScan o false st.files entries 0 st.events [] [] 0 = ScanOut.abort events' p c e →
       file_modifications_core o false att st entries = att p c e { st with events := events' } ∧
       ∃ errs, events' = st.events ++ errs ∧ ∀ x ∈ errs, isErrorReport x = true) ∧
    (∀ (o : Oracles) (att : Att) (st : St) (entries : List (List Char × List Char))
        (events' panels : List Event) (cleaned : PyDict) (count : Nat),
       entries ≠ [] →
       modScan o false st.files entries 0 st.events [] [] 0 =
         ScanOut.done events' panels cleaned count →
       panels ≠ [] →
       Event.confirmAsked count ∈ (file_modifications_core o false att st entries).events) := by
  constructor
  · intro o att st entries events' p c e hne habort
    constructor
    · unfold file_modifications_core
      rw [if_neg (by simp [hne])]
      rw [habort]
    · exact modScan_abort_events o false st.files entries _ _ _ _ _ _ _ _ _ habort
  · intro o att st entries events' panels cleaned count hne hdone hpan
    have hch : file_modifications_core o false att st entries =
        (if o.confirmBatch then
          applyMods o cleaned
            { st with events := events' ++ panels ++ [Event.confirmAsked count] }
        else
          push { st with events := events' ++ panels ++ [Event.confirmAsked count] }
            Event.cancelReported) := by
      unfold file_modifications_core
      rw [if_neg (by simp [hne])]
      rw [hdone]
      simp only
      rw [if_neg (by simp [hpan])]
    rw [hch]
    by_cases hcf : o.confirmBatch = true
    · rw [if_pos hcf, applyMods_eq]
      simp
    · rw [if_neg hcf]
      simp [push]

theorem claim_C1_witness :
    (file_modifications_core oracleAllYes false attemptStub ⟨[], []⟩
        [("a.py".data, "x = 1".data), ("b.py".data, "def f(:".data)] =
      attemptStub "b.py" "def f(:" "invalid syntax" ⟨[], []⟩) ∧
    Event.confirmAsked 1 ∈
      (file_modifications_core oracleAllYes false attemptStub ⟨[], []⟩
        [("a.txt".data, "hello".data)]).events := by
  constructor
  · exact (claim_C1_amended.1 oracleAllYes attemptStub ⟨[], []⟩
      [("a.py".data, "x = 1".data), ("b.py".data, "def f(:".data)]
      [] "b.py" "def f(:" "invalid syntax" (by decide) (by decide)).1
  · exact claim_C1_amended.2 oracleAllYes attemptStub ⟨[], []⟩
      [("a.txt".data, "hello".data)] []
      [Event.diffShown "a.txt"
        [DiffLine.header "--- a/a.txt", DiffLine.header "+++ b/a.txt",
         DiffLine.added "hello"]]
      [("a.txt", "hello")] 1 (by decide) (by decide) (by decide)

/-! ## C3: at most one correction attempt per directive chain -/

theorem countCorr_append (a b : List Event) :
    countCorr (a ++ b) = countCorr a + countCorr b := by
  simp [countCorr, List.filter_append]

theorem countCorr_singleton (e : Event) :
    countCorr [e] = if isCorrReq e then 1 else 0 := by
  unfold countCorr
  cases h : isCorrReq e <;> simp [List.filter, h]

theorem countCorr_nil : countCorr [] = 0 := rfl

theorem countCorr_cons (e : Event) (es : List Event) :
    countCorr (e :: es) = (if isCorrReq e then 1 else 0) + countCorr es := by
  rw [show e :: es = [e] ++ es from rfl, countCorr_append, countCorr_singleton]

/-- A correction-continuation bound: applying `att` adds at most `A`
correction requests to the trace. -/
def AttBound (att : Att) (A : Nat) : Prop :=
  ∀ p c e st, countCorr ((att p c e st).events) ≤ countCorr st.events + A

theorem countCorr_run_command (o : Oracles) (i : Nat) (st : St) (c : String) :
    countCorr ((run_command o i st c).events) = countCorr st.events := by
  unfold run_command
  split
  · split <;> simp [push, countCorr_append, countCorr_singleton, countCorr_cons, countCorr_nil, isCorrReq]
  · simp [push, countCorr_append, countCorr_singleton, countCorr_cons, countCorr_nil, isCorrReq]

theorem countCorr_runCommands (o : Oracles) :
    ∀ (cs : List String) (i : Nat) (st : St),
      countCorr ((runCommands o i st cs).events) = countCorr st.events := by
  intro cs
  induction cs with
  | nil => intro i st; rfl
  | cons c rest ih =>
    intro i st
    rw [runCommands, ih, countCorr_run_command]

theorem countCorr_shell (o : Oracles) (st : St) (r : String) :
    countCorr ((handle_shell_execution o st r).events) = countCorr st.events := by
  unfold handle_shell_execution
  dsimp only
  split
  · rfl
  · split <;>
      simp [countCorr_runCommands, push, countCorr_append, countCorr_singleton, countCorr_cons, countCorr_nil, isCorrReq]

theorem countCorr_projFinish :
    ∀ (created : List (String × String)) (st : St),
      countCorr ((projFinish created st).events) = countCorr st.events := by
  intro created
  induction created with
  | nil => intro st; rfl
  | cons pc rest ih =>
    intro st
    obtain ⟨p, c⟩ := pc
    rw [projFinish, ih]
    simp [countCorr_append, countCorr_singleton, countCorr_cons, countCorr_nil, isCorrReq]

theorem countCorr_projApply (o : Oracles) (isCorr : Bool) (att : Att) (A : Nat)
    (hatt : AttBound att A) :
    ∀ (entries : List (List Char × List Char)) (i : Nat)
      (created : List (String × String)) (st : St),
      countCorr ((projApply o isCorr att entries i created st).events) ≤
        countCorr st.events + A := by
  intro entries
  induction entries with
  | nil =>
    intro i created st
    rw [projApply, countCorr_projFinish]
    omega
  | cons pc rest ih =>
    intro i created st
    obtain ⟨path, content⟩ := pc
    rw [projApply]
    dsimp only
    split
    · split
      all_goals
        refine le_trans (ih _ _ _) ?_
        simp [push, countCorr_append, countCorr_singleton, countCorr_cons, countCorr_nil, isCorrReq]
    · split
      · split
        · refine le_trans (ih _ _ _) ?_
          simp [push, countCorr_append, countCorr_singleton, countCorr_cons, countCorr_nil, isCorrReq]
        · split
          · exact hatt _ _ _ _
          · refine le_trans (ih _ _ _) ?_
            simp [push, countCorr_append, countCorr_singleton, countCorr_cons, countCorr_nil, isCorrReq]
      · split
        all_goals
          refine le_trans (ih _ _ _) ?_
          simp [push, countCorr_append, countCorr_singleton, countCorr_cons, countCorr_nil, isCorrReq]

theorem countCorr_project_core (o : Oracles) (isCorr : Bool) (att : Att) (A : Nat)
    (hatt : AttBound att A) (st : St) (entries : List (List Char × List Char)) :
    countCorr ((project_creation_core o isCorr att st entries).events) ≤
      countCorr st.events + A := by
  unfold project_creation_core
  split
  · omega
  · dsimp only
    split
    · refine le_trans (countCorr_projApply o isCorr att A hatt _ _ _ _) ?_
      simp [push, countCorr_append, countCorr_singleton, countCorr_cons, countCorr_nil, isCorrReq]
    · simp [push, countCorr_append, countCorr_singleton, countCorr_cons, countCorr_nil, isCorrReq]

theorem countCorr_handle_project (o : Oracles) (isCorr : Bool) (att : Att) (A : Nat)
    (hatt : AttBound att A) (st : St) (r : String) :
    countCorr ((handle_project_creation o isCorr att st r).events) ≤
      countCorr st.events + A := by
  unfold handle_project_creation
  split
  · omega
  · dsimp only
    split
    · refine le_trans (countCorr_project_core o isCorr att A hatt _ _) ?_
      simp [push, countCorr_append, countCorr_singleton, countCorr_cons, countCorr_nil, isCorrReq]
    · exact countCorr_project_core o isCorr att A hatt st _

def ScanOut.ev : ScanOut → List Event
  | ScanOut.done e _ _ _ => e
  | ScanOut.abort e _ _ _ => e

theorem countCorr_modScan (o : Oracles) (isCorr : Bool) (files : PyDict) :
    ∀ (entries : List (List Char × List Char)) i ev pan cl cnt,
      countCorr ((modScan o isCorr files entries i ev pan cl cnt).ev) = countCorr ev := by
  intro entries
  induction entries with
  | nil => intro i ev pan cl cnt; rfl
  | cons pc rest ih =>
    intro i ev pan cl cnt
    obtain ⟨pathRaw, contentRaw⟩ := pc
    rw [modScan]
    dsimp only
    split
    · split
      · rw [ih]
        simp [countCorr_append, countCorr_singleton, countCorr_cons, countCorr_nil, isCorrReq]
      · split
        · rfl
        · rw [ih]
          simp [countCorr_append, countCorr_singleton, countCorr_cons, countCorr_nil, isCorrReq]
    · rw [ih]

theorem modScan_done_panels_corr (o : Oracles) (isCorr : Bool) (files : PyDict) :
    ∀ (entries : List (List Char × List Char)) i ev pan cl cnt ev' pan' cl' cnt',
      modScan o isCorr files entries i ev pan cl cnt = ScanOut.done ev' pan' cl' cnt' →
      countCorr pan' = countCorr pan := by
  intro entries
  induction entries with
  | nil =>
    intro i ev pan cl cnt ev' pan' cl' cnt' h
    rw [modScan] at h
    cases h
    rfl
  | cons pc rest ih =>
    intro i ev pan cl cnt ev' pan' cl' cnt' h
    obtain ⟨pathRaw, contentRaw⟩ := pc
    rw [modScan] at h
    simp only at h
    split at h
    · split at h
      · exact ih _ _ _ _ _ _ _ _ _ h
      · split at h
        · cases h
        · exact ih _ _ _ _ _ _ _ _ _ h
    · rw [ih _ _ _ _ _ _ _ _ _ h]
      simp [countCorr_append, countCorr_singleton, countCorr_cons, countCorr_nil, isCorrReq]

theorem countCorr_applyEvents (o : Oracles) (items : PyDict) :
    countCorr (applyEvents o items) = 0 := by
  induction items with
  | nil => rfl
  | cons pc rest ih =>
    unfold applyEvents at ih ⊢
    rw [List.map_cons]
    rw [show ∀ (e : Event) es, countCorr (e :: es) = countCorr [e] + countCorr es from
      fun e es => by rw [show e :: es = [e] ++ es from rfl, countCorr_append]]
    rw [ih]
    split <;> simp [countCorr_singleton, countCorr_cons, countCorr_nil, isCorrReq]

theorem countCorr_mods_core (o : Oracles) (isCorr : Bool) (att : Att) (A : Nat)
    (hatt : AttBound att A) (st : St) (entries : List (List Char × List Char)) :
    countCorr ((file_modifications_core o isCorr att st entries).events) ≤
      countCorr st.events + A := by
  unfold file_modifications_core
  split
  · omega
  · cases hscan : modScan o isCorr st.files entries 0 st.events [] [] 0 with
    | abort ev' p c e =>
      dsimp only
      have hev : countCorr ev' = countCorr st.events := by
        have h := countCorr_modScan o isCorr st.files entries 0 st.events [] [] 0
        rw [hscan] at h
        exact h
      have hb := hatt p c e { st with events := ev' }
      simp only at hb
      rw [hev] at hb
      exact hb
    | done ev' pan' cl' cnt' =>
      have hev : countCorr ev' = countCorr st.events := by
        have h := countCorr_modScan o isCorr st.files entries 0 st.events [] [] 0
        rw [hscan] at h
        exact h
      have hpan : countCorr pan' = 0 :=
        modScan_done_panels_corr o isCorr st.files entries 0 st.events [] [] 0 _ _ _ _ hscan
      dsimp only
      split
      · simp only [hev]
        omega
      · split
        · rw [applyMods_eq]
          simp only
          simp [countCorr_append, countCorr_applyEvents, countCorr_singleton,
            countCorr_cons, countCorr_nil, isCorrReq, hev, hpan]
        · simp [push, countCorr_append, countCorr_singleton, countCorr_cons,
            countCorr_nil, isCorrReq, hev, hpan]

theorem countCorr_handle_mods (o : Oracles) (isCorr : Bool) (att : Att) (A : Nat)
    (hatt : AttBound att A) (st : St) (r : String) :
    countCorr ((handle_file_modifications o isCorr att st r).events) ≤
      countCorr st.events + A := by
  unfold handle_file_modifications
  split
  · omega
  · dsimp only
    split
    · refine le_trans (countCorr_mods_core o isCorr att A hatt _ _) ?_
      simp [push, countCorr_append, countCorr_singleton, countCorr_cons, countCorr_nil, isCorrReq]
    · exact countCorr_mods_core o isCorr att A hatt st _

theorem countCorr_fallbackCreateConfirm (o : Oracles) (st : St) (built : Option Directive)
    (f n : String) :
    countCorr ((fallbackCreateConfirm o st built f n).st.events) = countCorr st.events := by
  unfold fallbackCreateConfirm
  split
  · split <;> simp [push, countCorr_append, countCorr_singleton, countCorr_cons, countCorr_nil, isCorrReq]
  · simp [push, countCorr_append, countCorr_singleton, countCorr_cons, countCorr_nil, isCorrReq]

theorem countCorr_fallbackCreate (o : Oracles) (isCorr : Bool) (att : Att) (A : Nat)
    (hatt : AttBound att A) (st : St) (n : String) :
    countCorr ((fallbackCreate o isCorr att st n).st.events) ≤ countCorr st.events + A := by
  have hcc := fun b f => countCorr_fallbackCreateConfirm o st b f n
  by_cases h1 : sIsEmpty o.filenameAns = true
  · simp [fallbackCreate, h1, push, countCorr_append, countCorr_cons, countCorr_nil, isCorrReq]
  · by_cases h2 : sEndsWith o.filenameAns pyExt = true
    · cases hv : o.pyValid n with
      | some err =>
        by_cases h3 : isCorr = true
        · simp [fallbackCreate, h1, h2, hv, h3, push, countCorr_append, countCorr_cons,
            countCorr_nil, isCorrReq]
        · by_cases h4 : o.corrAns 0 = true
          · have hb := hatt o.filenameAns n err st
            simp only [fallbackCreate, h1, h2, hv, h3, h4, Bool.false_eq_true, if_false,
              if_true, if_pos, if_neg, not_false_iff]
            simpa using hb
          · simp [fallbackCreate, h1, h2, hv, h3, h4, push, countCorr_append, countCorr_cons,
              countCorr_nil, isCorrReq]
      | none =>
        simp [fallbackCreate, h1, h2, hv, hcc]
    · simp [fallbackCreate, h1, h2, hcc]

theorem countCorr_fallbackModifyApply (o : Oracles) (st : St) (built : Option Directive)
    (p n : String) :
    countCorr ((fallbackModifyApply o st built p n).st.events) = countCorr st.events := by
  unfold fallbackModifyApply
  split
  · split <;> simp [push, countCorr_append, countCorr_singleton, countCorr_cons, countCorr_nil, isCorrReq]
  · simp [push, countCorr_append, countCorr_singleton, countCorr_cons, countCorr_nil, isCorrReq]

theorem countCorr_fallbackModifyResolved (o : Oracles) (isCorr : Bool) (att : Att) (A : Nat)
    (hatt : AttBound att A) (st : St) (p n : String) :
    countCorr ((fallbackModifyResolved o isCorr att st p n).st.events) ≤
      countCorr st.events + A := by
  have hma := fun b => countCorr_fallbackModifyApply o st b p n
  by_cases h1 : sIsEmpty p = true
  · simp [fallbackModifyResolved, h1]
  · by_cases h2 : sEndsWith p pyExt = true
    · cases hv : o.pyValid n with
      | some err =>
        by_cases h3 : isCorr = true
        · simp [fallbackModifyResolved, h1, h2, hv, h3, push, countCorr_append,
            countCorr_cons, countCorr_nil, isCorrReq]
        · by_cases h4 : o.corrAns 0 = true
          · have hb := hatt p n err st
            simp only [fallbackModifyResolved, h1, h2, hv, h3, h4, Bool.false_eq_true,
              if_false, if_true, if_pos, if_neg, not_false_iff]
            simpa using hb
          · simp [fallbackModifyResolved, h1, h2, hv, h3, h4, push, countCorr_append,
              countCorr_cons, countCorr_nil, isCorrReq]
      | none =>
        simp [fallbackModifyResolved, h1, h2, hv, hma]
    · simp [fallbackModifyResolved, h1, h2, hma]

theorem countCorr_fallbackModify (o : Oracles) (isCorr : Bool) (att : Att) (A : Nat)
    (hatt : AttBound att A) (st : St) (n : String) :
    countCorr ((fallbackModify o isCorr att st n).st.events) ≤ countCorr st.events + A := by
  unfold fallbackModify
  split
  · dsimp only; omega
  · split
    · exact countCorr_fallbackModifyResolved o isCorr att A hatt st _ n
    · dsimp only
      split
      · simp [push, countCorr_append, countCorr_singleton, countCorr_cons, countCorr_nil, isCorrReq]
      · split
        · refine le_trans (countCorr_fallbackModifyResolved o isCorr att A hatt _ _ n) ?_
          simp [push, countCorr_append, countCorr_singleton, countCorr_cons, countCorr_nil, isCorrReq]
        · simp [push, countCorr_append, countCorr_singleton, countCorr_cons, countCorr_nil, isCorrReq]

theorem countCorr_fallback (o : Oracles) (isCorr : Bool) (att : Att) (A : Nat)
    (hatt : AttBound att A) (st : St) (r : String) :
    countCorr ((handle_fallback_code_block o isCorr att st r).st.events) ≤
      countCorr st.events + A := by
  unfold handle_fallback_code_block
  split
  · dsimp only; omega
  · dsimp only
    split
    · rw [countCorr_runCommands]
      simp [push, countCorr_append, countCorr_singleton, countCorr_cons, countCorr_nil, isCorrReq]
    · split
      · dsimp only; omega
      · split
        · refine le_trans (countCorr_fallbackCreate o isCorr att A hatt _ _) ?_
          simp [push, countCorr_append, countCorr_singleton, countCorr_cons, countCorr_nil, isCorrReq]
        · exact countCorr_fallbackModify o isCorr att A hatt st _

theorem countCorr_dispatch (o : Oracles) (isCorr : Bool) (att : Att) (A : Nat)
    (hatt : AttBound att A) (st : St) (r : String) :
    countCorr ((dispatch o isCorr att st r).events) ≤ countCorr st.events + A := by
  unfold dispatch
  dsimp only
  split
  · omega
  · split
    · exact countCorr_handle_project o isCorr att A hatt st _
    · split
      · exact countCorr_handle_mods o isCorr att A hatt st _
      · split
        · rw [countCorr_shell]
          omega
        · exact countCorr_fallback o isCorr att A hatt st _

theorem attBound_stub : AttBound attemptStub 0 := by
  intro p c e st
  simp [attemptStub]

theorem countCorr_process_corr (o : Oracles) (st : St) (r : String) :
    countCorr ((process_response_corr o st r).events) ≤ countCorr st.events := by
  have h := countCorr_dispatch o true attemptStub 0 attBound_stub st r
  simpa using h

theorem attBound_real (o : Oracles) :
    AttBound (attemptSelfCorrection o (process_response_corr o)) 1 := by
  intro p c e st
  unfold attemptSelfCorrection
  simp only [push]
  split
  · simp [push, countCorr_append, countCorr_singleton, countCorr_cons, countCorr_nil, isCorrReq]
  · have h := countCorr_process_corr o
      { events := st.events ++ [Event.correctionRequested p c e], files := st.files }
      (o.regen p c e)
    simp only [countCorr_append, countCorr_cons, countCorr_nil, isCorrReq, if_pos] at h
    omega

/-- C3: per directive chain, at most one correction attempt.  The first
conjunct bounds a full top-level run of `process_response`: the whole trace —
including the reprocessing of the regenerated response with the correction
flag set — gains at most ONE correction request.  The second conjunct shows
that reprocessing with `is_correction_attempt=True` issues NO correction
request under any circumstance: a directive that fails validation again is
abandoned with a terminal failure report rather than a second request. -/
theorem claim_C3 :
    (∀ (o : Oracles) (st : St) (r : String),
       countCorr ((process_response o false st r).events) ≤ countCorr st.events + 1) ∧
    (∀ (o : Oracles) (st : St) (r : String),
       countCorr ((process_response o true st r).events) ≤ countCorr st.events) := by
  constructor
  · intro o st r
    unfold process_response
    rw [if_neg (by simp)]
    exact countCorr_dispatch o false _ 1 (attBound_real o) st r
  · intro o st r
    unfold process_response
    rw [if_pos rfl]
    exact countCorr_process_corr o st r
/-! ## C7: shell-tag extraction -/

theorem findAllBetweenF_congr (o c : List Char) :
    ∀ (f1 f2 : Nat) (s : List Char), s.length ≤ f1 → s.length ≤ f2 →
      findAllBetweenF o c f1 s = findAllBetweenF o c f2 s := by
  intro f1
  induction f1 with
  | zero =>
    intro f2 s h1 _
    have hs : s = [] := List.length_eq_zero.mp (Nat.le_zero.mp h1)
    subst hs
    cases f2 <;> simp [findAllBetweenF, splitFirst]
  | succ f ih =>
    intro f2 s h1 h2
    cases f2 with
    | zero =>
      have hs : s = [] := List.length_eq_zero.mp (Nat.le_zero.mp h2)
      subst hs
      simp [findAllBetweenF, splitFirst]
    | succ g =>
      rw [findAllBetweenF, findAllBetweenF]
      cases hs1 : splitFirst o s with
      | none => rfl
      | some br1 =>
        dsimp only
        cases hs2 : splitFirst c br1.2 with
        | none => rfl
        | some br2 =>
          dsimp only
          have l1 := splitFirst_length hs1
          have l2 := splitFirst_length hs2
          congr 1
          exact ih g br2.2 (by omega) (by omega)

theorem findAllBetween_of_none {o c s : List Char} (h : splitFirst o s = none) :
    findAllBetween o c s = [] := by
  unfold findAllBetween
  cases hsl : s.length with
  | zero => rfl
  | succ n =>
    rw [findAllBetweenF, h]

theorem findAllBetween_step {o c s : List Char} {br1 br2 : List Char × List Char}
    (h1 : splitFirst o s = some br1) (h2 : splitFirst c br1.2 = some br2) :
    findAllBetween o c s = br2.1 :: findAllBetween o c br2.2 := by
  have l1 := splitFirst_length h1
  have l2 := splitFirst_length h2
  unfold findAllBetween
  have hsl : s.length = (s.length - 1) + 1 := by omega
  rw [hsl, findAllBetweenF, h1]
  simp only
  rw [h2]
  simp only
  congr 1
  exact findAllBetweenF_congr o c (s.length - 1) br2.2.length br2.2 (by omega) (by omega)

/-- `mkShellResp` on the character-list level. -/
def mkShellRespL : List (List Char × List Char) → List Char → List Char
  | [], t => t
  | (j, c) :: rest, t =>
    j ++ (shellOpenTag ++ (c ++ (shellCloseTag ++ mkShellRespL rest t)))

theorem shellOpenTag_cons : shellOpenTag = '<' :: "shell>".data := rfl

theorem shellCloseTag_cons : shellCloseTag = '<' :: "/shell>".data := rfl

theorem findAllShell_mkL :
    ∀ (parts : List (List Char × List Char)) (t : List Char),
      (∀ pr ∈ parts, '<' ∉ pr.1 ∧ '<' ∉ pr.2) → '<' ∉ t →
      findAllBetween shellOpenTag shellCloseTag (mkShellRespL parts t) =
        parts.map (fun pr => pr.2) := by
  intro parts
  induction parts with
  | nil =>
    intro t _ ht
    rw [mkShellRespL, List.map_nil]
    exact findAllBetween_of_none (shellOpenTag_cons ▸ splitFirst_none_of_no_open ht)
  | cons pr rest ih =>
    intro t hparts ht
    obtain ⟨j, c⟩ := pr
    have hj : '<' ∉ j := (hparts _ (List.mem_cons_self _ _)).1
    have hc : '<' ∉ c := (hparts _ (List.mem_cons_self _ _)).2
    rw [mkShellRespL]
    have h1 : splitFirst shellOpenTag
        (j ++ (shellOpenTag ++ (c ++ (shellCloseTag ++ mkShellRespL rest t)))) =
        some (j, c ++ (shellCloseTag ++ mkShellRespL rest t)) := by
      rw [shellOpenTag_cons, splitFirst_append_of_no_open hj, ← shellOpenTag_cons,
        splitFirst_at_self shellOpenTag (by decide)]
      simp
    have h2 : splitFirst shellCloseTag (c ++ (shellCloseTag ++ mkShellRespL rest t)) =
        some (c, mkShellRespL rest t) := by
      rw [shellCloseTag_cons, splitFirst_append_of_no_open hc, ← shellCloseTag_cons,
        splitFirst_at_self shellCloseTag (by decide)]
      simp
    rw [findAllBetween_step h1 h2, List.map_cons]
    exact congrArg _ (ih t (fun pr h => hparts pr (List.mem_cons_of_mem _ h)) ht)

theorem mk_data_eta (s : String) : String.mk s.data = s := rfl

theorem mkShellResp_data (parts : List (String × String)) (t : String) :
    (mkShellResp parts t).data =
      mkShellRespL (parts.map (fun pr => (pr.1.data, pr.2.data))) t.data := by
  induction parts with
  | nil => rfl
  | cons pr rest ih =>
    obtain ⟨j, c⟩ := pr
    show (j ++ (wrapShell c ++ mkShellResp rest t)).data = _
    rw [List.map_cons, mkShellRespL]
    show j.data ++ (wrapShell c ++ mkShellResp rest t).data = _
    show j.data ++ (("<shell>" ++ c ++ "</shell>").data ++ (mkShellResp rest t).data) = _
    rw [ih]
    show j.data ++ ((("<shell>" ++ c).data ++ "</shell>".data) ++ _) = _
    show j.data ++ ((("<shell>".data ++ c.data) ++ "</shell>".data) ++ _) = _
    simp [shellOpenTag, shellCloseTag, List.append_assoc]

theorem runCommands_events (o : Oracles) :
    ∀ (cmds : List String) (i : Nat) (st : St),
      runCommands o i st cmds = ⟨st.events ++ expectedRunEvents o i cmds, st.files⟩ := by
  intro cmds
  induction cmds with
  | nil =>
    intro i st
    rw [runCommands, expectedRunEvents]
    simp
  | cons c rest ih =>
    intro i st
    rw [runCommands, ih, expectedRunEvents]
    unfold run_command
    by_cases h1 : o.execAns i = true
    · rw [if_pos h1]
      by_cases h2 : sStartsWith (pystrip c) o.terminalLauncher = true
      · rw [if_pos h2]
        simp [push, h1, h2, List.append_assoc]
      · rw [if_neg h2]
        simp only [Bool.not_eq_true] at h2
        simp [push, h1, h2, List.append_assoc]
    · rw [if_neg h1]
      simp only [Bool.not_eq_true] at h1
      simp [push, h1, List.append_assoc]

/-- C7: a response built of `N` `<shell>…</shell>` tags (with tag-free junk
around them and tag-free command bodies) parses to exactly `N` shell
directives, one per tag with the whitespace-stripped enclosed command, in
textual order; `run_command` then executes them behind one independent
confirmation each, in that order.  In particular
`"<shell>ls -la</shell>"` yields exactly the one command `"ls -la"`. -/
theorem claim_C7 :
    (∀ (parts : List (String × String)) (t : String),
       (∀ pr ∈ parts, '<' ∉ pr.1.data ∧ '<' ∉ pr.2.data) → '<' ∉ t.data →
       shellCmds (mkShellResp parts t) = parts.map (fun pr => pystrip pr.2) ∧
       (shellCmds (mkShellResp parts t)).length = parts.length) ∧
    (∀ (o : Oracles) (i : Nat) (st : St) (cmds : List String),
       runCommands o i st cmds = ⟨st.events ++ expectedRunEvents o i cmds, st.files⟩) := by
  constructor
  · intro parts t hparts ht
    have hmain : shellCmds (mkShellResp parts t) = parts.map (fun pr => pystrip pr.2) := by
      unfold shellCmds
      rw [mkShellResp_data, findAllShell_mkL _ t.data
        (by
          intro pr hpr
          obtain ⟨q, hq, rfl⟩ := List.mem_map.mp hpr
          exact hparts q hq)
        ht]
      rw [List.map_map, List.map_map]
      apply List.map_congr_left
      intro pr _
      show pystrip (String.mk pr.2.data) = pystrip pr.2
      rw [mk_data_eta]
    exact ⟨hmain, by rw [hmain, List.length_map]⟩
  · intro o i st cmds
    exact runCommands_events o cmds i st

theorem claim_C7_witness :
    mkShellResp [("", "ls -la")] "" = "<shell>ls -la</shell>" ∧
    shellCmds (mkShellResp [("", "ls -la")] "") = ["ls -la"] :=
  ⟨by decide,
   ((claim_C7.1 [("", "ls -la")] "" (by decide) (by decide)).1).trans (by decide)⟩

/-! ## C6: fallback code-block resolution against FileState -/

/-- C6: when a complete response has fenced code blocks, not all
shell-tagged, and the first block's stripped content is nonempty, the block
resolves against `loaded_files`: with exactly one loaded file it becomes a
modification directive for that file's path (committed before validation);
with zero loaded files it becomes a creation directive whose path comes from
the interactive filename prompt (an empty answer cancels, constructing no
directive and reporting the cancellation); with two or more loaded files an
explicit selection over the sorted loaded paths must choose the path first —
a cancelled selection constructs no directive, a choice `i` yields the
modification directive for the `i`-th sorted path. -/
theorem claim_C6 (o : Oracles) (att : Att) (st : St) (r : String)
    (lang0 raw0 : List Char) (restB : List (List Char × List Char))
    (hb : findAllCodeBlocks r.data = (lang0, raw0) :: restB)
    (hns : ((shellScan ((lang0, raw0) :: restB)).1 &&
        !(shellScan ((lang0, raw0) :: restB)).2.isEmpty) = false)
    (hnc : (pystripL raw0).isEmpty = false) :
    (st.files = [] → sIsEmpty o.filenameAns = true →
      (handle_fallback_code_block o false att st r).built = none ∧
      Event.cancelReported ∈ (handle_fallback_code_block o false att st r).st.events) ∧
    (st.files = [] → sIsEmpty o.filenameAns = false →
      (handle_fallback_code_block o false att st r).built =
        some (Directive.createFile o.filenameAns (String.mk (pystripL raw0)))) ∧
    (∀ k v, st.files = [(k, v)] → sIsEmpty k = false →
      (handle_fallback_code_block o false att st r).built =
        some (Directive.modifyFile k (String.mk (pystripL raw0)))) ∧
    (∀ kv1 kv2 rest2, st.files = kv1 :: kv2 :: rest2 → o.selectAns = none →
      (handle_fallback_code_block o false att st r).built = none ∧
      Event.cancelReported ∈ (handle_fallback_code_block o false att st r).st.events) ∧
    (∀ kv1 kv2 rest2 i, st.files = kv1 :: kv2 :: rest2 → o.selectAns = some i →
      ∀ (h : 1 ≤ i ∧ i ≤ (sortStrings (dkeys st.files)).length),
      sIsEmpty ((sortStrings (dkeys st.files)).get ⟨i - 1, by omega⟩) = false →
      (handle_fallback_code_block o false att st r).built =
        some (Directive.modifyFile ((sortStrings (dkeys st.files)).get ⟨i - 1, by omega⟩)
          (String.mk (pystripL raw0)))) := by
  have hfb : handle_fallback_code_block o false att st r =
      (if st.files.isEmpty then
        fallbackCreate o false att (push st Event.fallbackCreateNotice)
          (String.mk (pystripL raw0))
      else fallbackModify o false att st (String.mk (pystripL raw0))) := by
    unfold handle_fallback_code_block
    rw [hb]
    dsimp only
    rw [if_neg (by simp [hns]), if_neg (by simp [hnc])]
  refine ⟨?_, ?_, ?_, ?_, ?_⟩
  · intro hf he
    rw [hfb, if_pos (by simp [hf])]
    unfold fallbackCreate
    rw [if_pos he]
    simp [push]
  · intro hf he
    rw [hfb, if_pos (by simp [hf])]
    unfold fallbackCreate
    rw [if_neg (by simp [he])]
    dsimp only
    split
    · split
      · split
        · rfl
        · split
          · rfl
          · rfl
      · unfold fallbackCreateConfirm
        split
        · split
          · rfl
          · rfl
        · rfl
    · unfold fallbackCreateConfirm
      split
      · split
        · rfl
        · rfl
      · rfl
  · intro k v hf hk
    obtain ⟨sev, sfiles⟩ := st
    simp only at hf
    subst hf
    rw [hfb, if_neg (by simp)]
    unfold fallbackModify
    dsimp only
    rw [if_pos (show ([] : List (String × String)).isEmpty = true from rfl)]
    unfold fallbackModifyResolved
    rw [if_neg (by simp [hk])]
    dsimp only
    split
    · split
      · split
        · rfl
        · split
          · rfl
          · rfl
      · unfold fallbackModifyApply
        dsimp only
        split
        · split
          · rfl
          · rfl
        · rfl
    · unfold fallbackModifyApply
      dsimp only
      split
      · split
        · rfl
        · rfl
      · rfl
  · intro kv1 kv2 rest2 hf hsel
    obtain ⟨sev, sfiles⟩ := st
    simp only at hf
    subst hf
    rw [hfb, if_neg (by simp)]
    unfold fallbackModify
    dsimp only
    rw [if_neg (by simp), hsel]
    simp [push]
  · intro kv1 kv2 rest2 i hf hsel h hk
    obtain ⟨sev, sfiles⟩ := st
    simp only at hf h hk ⊢
    subst hf
    rw [hfb, if_neg (by simp)]
    unfold fallbackModify
    dsimp only
    rw [if_neg (by simp), hsel]
    dsimp only
    rw [dif_pos h]
    unfold fallbackModifyResolved
    have hk2 : sIsEmpty (sortStrings (dkeys (kv1 :: kv2 :: rest2)))[i - 1] = false := by
      simpa [List.get_eq_getElem] using hk
    rw [if_neg (by simp [hk2])]
    dsimp only
    split
    · split
      · split
        · rfl
        · split
          · rfl
          · rfl
      · unfold fallbackModifyApply
        dsimp only
        split
        · split
          · rfl
          · rfl
        · rfl
    · unfold fallbackModifyApply
      dsimp only
      split
      · split
        · rfl
        · rfl
      · rfl

theorem claim_C6_witness :
    (handle_fallback_code_block oracleAllYes false attemptStub ⟨[], [("a.txt", "x")]⟩
        "```\nhello\n```").built = some (Directive.modifyFile "a.txt" "hello") :=
  ((claim_C6 oracleAllYes attemptStub ⟨[], [("a.txt", "x")]⟩ "```\nhello\n```"
      [] "hello\n".data [] (by decide) (by decide) (by decide)).2.2.1
    "a.txt" "x" (by decide) (by decide)).trans (by decide)

end OllamaCli
